import Mathlib

/-!
MandelbrotReact: the `MandelbrotCanvas` component of `src/MandelbrotFractal.js`

A shallow embedding of the numeric core of the component: the colour map
`getHeatmapColor`, the escape-time loop and the raster loop of `renderFractal`,
and the event handlers (`handleWheel`, `handleMouseDown`, `handleMouseUp`,
`handleMouseMove`, the `Zoom In` and `Reset View` buttons, the quality slider).

The component is embedded twice. The first part reads its formulas in exact
arithmetic over the rationals (`ℚ`); it carries the properties that are stated for
exact arithmetic, and those of the colour map and the iteration budget. The second
part (`Dbl`, namespace `F64`) evaluates the same formulas in IEEE 754 binary64, the
arithmetic in which JavaScript runs them, with every operation rounded to nearest,
ties to even. Loop counters, the iteration budget and canvas dimensions are naturals.
-/

namespace Mandelbrot

/-! ## Colour map (source lines 22-27) -/

/-- The value `Math.floor(255 * Math.pow(t, 1.5))` for `t ≥ 0`, computed exactly:
`⌊255·t^(3/2)⌋ = ⌊√(65025·t³)⌋ = Nat.sqrt ⌊65025·t³⌋` (see `floorPow15_eq_real`).
For `t < 0` JavaScript's `Math.pow(t, 1.5)` is `NaN`; the renderer only calls the
colour map with `t = i / maxIter ≥ 0`. -/
def floorPow15 (t : ℚ) : ℤ :=
  ((Nat.sqrt (Int.toNat ⌊65025 * t ^ 3⌋) : ℕ) : ℤ)

/-- The function `getHeatmapColor(t)`: the triple `[r, g, b]`. -/
def getHeatmapColor (t : ℚ) : ℤ × ℤ × ℤ :=
  let r := ⌊255 * t ^ 3⌋
  let g := floorPow15 t
  let b := ⌊255 * t⌋
  (r, g, b)

/-! ## Escape-time loop (source lines 45-53) -/

/-- The `while (a * a + b * b <= 4 && i < maxIter)` loop of `renderFractal`, read in
exact arithmetic, started in the loop state `(a, b, i)`; the result is the counter `i`
when the loop exits. The loop as JavaScript runs it is `F64.escapeLoop`. -/
def escapeLoop (zx zy : ℚ) (maxIter : ℕ) (a b : ℚ) (i : ℕ) : ℕ :=
  if a * a + b * b ≤ 4 ∧ i < maxIter then
    let aa := a * a - b * b + zx
    let bb := 2 * a * b + zy
    escapeLoop zx zy maxIter aa bb (i + 1)
  else i
termination_by maxIter - i
decreasing_by omega

/-- The escape count of the point `(zx, zy)`: `let a = zx, b = zy, i = 0` followed by
the loop. -/
def iterate (zx zy : ℚ) (maxIter : ℕ) : ℕ :=
  escapeLoop zx zy maxIter zx zy 0

/-! ## Component state and render-space transform -/

/-- A pair `{ x, y }`, as held in `offset` and `lastPos`. -/
structure Point where
  x : ℚ
  y : ℚ
deriving DecidableEq

/-- The `useState` cells of the component that the renderer and the handlers read
and write: `zoom`, `offset`, `dragging`, `lastPos` (`none` is `null`), `maxIter`,
`scale`. -/
structure State where
  zoom : ℚ
  offset : Point
  dragging : Bool
  lastPos : Option Point
  maxIter : ℕ
  scale : ℚ
deriving DecidableEq

/-- The values passed to `useState` (source lines 5-10). -/
def initialState : State :=
  { zoom := 200, offset := { x := -0.5, y := 0 }, dragging := false,
    lastPos := none, maxIter := 100, scale := 0.5 }

/-- Render-space transform `(x - w / 2) / (zoom * scale) + offset.x` (line 43), in
exact arithmetic. -/
def fractalX (s : State) (w : ℤ) (x : ℚ) : ℚ :=
  (x - (w : ℚ) / 2) / (s.zoom * s.scale) + s.offset.x

/-- Render-space transform `(y - h / 2) / (zoom * scale) + offset.y` (line 44), in
exact arithmetic. -/
def fractalY (s : State) (h : ℤ) (y : ℚ) : ℚ :=
  (y - (h : ℚ) / 2) / (s.zoom * s.scale) + s.offset.y

/-- Conversion applied by a `Uint8ClampedArray` to a stored integer. -/
def clampByte (v : ℤ) : ℤ :=
  max 0 (min 255 v)

/-- The colour the renderer writes for escape count `i` (lines 56-66). -/
def pixelColor (i maxIter : ℕ) : ℤ × ℤ × ℤ :=
  if i = maxIter then (0, 0, 0)
  else
    let t := (i : ℚ) / (maxIter : ℚ)
    getHeatmapColor t

/-! ## Event handlers (source lines 103-148, 211, 221-226, 273-280) -/

/-- What the handlers read from the canvas element and the window. -/
structure Canvas where
  width : ℕ
  height : ℕ
  rectLeft : ℚ
  rectTop : ℚ
  devicePixelRatio : ℚ

/-- The fields of a wheel event read by `handleWheel`. -/
structure WheelEvent where
  clientX : ℚ
  clientY : ℚ
  deltaY : ℚ

/-- The fields of a mouse event read by `handleMouseDown` and `handleMouseMove`. -/
structure MouseEvent where
  clientX : ℚ
  clientY : ℚ

/-- The expression `window.devicePixelRatio || 1`. -/
def dprOf (c : Canvas) : ℚ :=
  if c.devicePixelRatio = 0 then 1 else c.devicePixelRatio

/-- The factor `e.deltaY > 0 ? 0.9 : 1.1` (line 114). -/
def wheelDelta (deltaY : ℚ) : ℚ :=
  if deltaY > 0 then 0.9 else 1.1

/-- Lines 111-124 of `handleWheel`, for a pointer at `(mouseX, mouseY)` on a canvas
of `canvasWidth × canvasHeight`: the new `zoom` and `offset`. -/
def wheelAt (canvasWidth canvasHeight : ℕ) (mouseX mouseY deltaY : ℚ) (s : State) : State :=
  let xBefore := (mouseX - (canvasWidth : ℚ) / 2) / s.zoom + s.offset.x
  let yBefore := (mouseY - (canvasHeight : ℚ) / 2) / s.zoom + s.offset.y
  let delta := wheelDelta deltaY
  let newZoom := s.zoom * delta
  let xAfter := (mouseX - (canvasWidth : ℚ) / 2) / newZoom + s.offset.x
  let yAfter := (mouseY - (canvasHeight : ℚ) / 2) / newZoom + s.offset.y
  { s with
    zoom := newZoom
    offset := { x := s.offset.x + (xBefore - xAfter), y := s.offset.y + (yBefore - yAfter) } }

/-- The handler `handleWheel` (lines 103-127). -/
def handleWheel (c : Canvas) (e : WheelEvent) (s : State) : State :=
  let dpr := dprOf c
  let mouseX := (e.clientX - c.rectLeft) * dpr
  let mouseY := (e.clientY - c.rectTop) * dpr
  wheelAt c.width c.height mouseX mouseY e.deltaY s

/-- The handler `handleMouseDown` (lines 129-133). -/
def handleMouseDown (e : MouseEvent) (s : State) : State :=
  { s with dragging := true, maxIter := 30, lastPos := some { x := e.clientX, y := e.clientY } }

/-- The handler `handleMouseUp` (lines 135-140). -/
def handleMouseUp (s : State) : State :=
  { s with dragging := false, lastPos := none, maxIter := 100 }

/-- The handler `handleMouseMove` (lines 142-148). -/
def handleMouseMove (e : MouseEvent) (s : State) : State :=
  match s.dragging, s.lastPos with
  | true, some lastPos =>
    let dx := (e.clientX - lastPos.x) / s.zoom
    let dy := (e.clientY - lastPos.y) / s.zoom
    { s with
      offset := { x := s.offset.x - dx, y := s.offset.y - dy }
      lastPos := some { x := e.clientX, y := e.clientY } }
  | _, _ => s

/-- The `Zoom In` button: `setZoom((z) => z * 1.5)` (line 221). -/
def zoomIn (s : State) : State :=
  { s with zoom := s.zoom * 1.5 }

/-- The `Reset View` button (lines 222-226). -/
def resetView (s : State) : State :=
  { s with zoom := 200, offset := { x := -0.5, y := 0 }, scale := 0.5 }

/-- The quality slider: `setScale(parseFloat(e.target.value))` (line 211). -/
def setScale (value : ℚ) (s : State) : State :=
  { s with scale := value }

/-- The user events that reach the component. -/
inductive Event where
  | wheel (c : Canvas) (e : WheelEvent)
  | mouseDown (e : MouseEvent)
  | mouseUp
  | mouseMove (e : MouseEvent)
  | mouseLeave
  | zoomInClick
  | resetViewClick
  | scaleChange (value : ℚ)

/-- Dispatch of an event to the handler registered for it. The `<canvas>` element
(lines 273-280) registers `onWheel`, `onMouseDown`, `onMouseUp` and `onMouseMove`
only, so a pointer-leave event runs no handler. -/
def step (s : State) : Event → State
  | Event.wheel c e => handleWheel c e s
  | Event.mouseDown e => handleMouseDown e s
  | Event.mouseUp => handleMouseUp s
  | Event.mouseMove e => handleMouseMove e s
  | Event.mouseLeave => s
  | Event.zoomInClick => zoomIn s
  | Event.resetViewClick => resetView s
  | Event.scaleChange value => setScale value s

/-- The state after a sequence of events, starting from the initial state. -/
def run (events : List Event) : State :=
  events.foldl step initialState

/-! ## Reference definitions, following the specification -/

/-- Square of a complex number `a + b·i` given as a pair. -/
def csq (z : ℚ × ℚ) : ℚ × ℚ :=
  (z.1 * z.1 - z.2 * z.2, z.1 * z.2 + z.2 * z.1)

/-- Squared modulus `|z|²`. -/
def normSq (z : ℚ × ℚ) : ℚ :=
  z.1 ^ 2 + z.2 ^ 2

/-- The orbit `z₀ = c`, `zₖ₊₁ = zₖ² + c`. -/
def orbit (c : ℚ × ℚ) : ℕ → ℚ × ℚ
  | 0 => c
  | k + 1 => csq (orbit c k) + c

/-- Reference escape count: the least `k < maxIter` with `|zₖ|² > 4` when there is
one, and `maxIter` otherwise. -/
def escapeRef (c : ℚ × ℚ) (maxIter : ℕ) : ℕ :=
  if h : ∃ k, k < maxIter ∧ 4 < normSq (orbit c k) then Nat.find h else maxIter

/-! ## IEEE 754 binary64 arithmetic -/

/-- Round to the nearest integer, ties to the even one. -/
def roundHalfEven (x : ℚ) : ℤ :=
  if x - (⌊x⌋ : ℚ) < 1 / 2 then ⌊x⌋
  else if 1 / 2 < x - (⌊x⌋ : ℚ) then ⌊x⌋ + 1
  else if ⌊x⌋ % 2 = 0 then ⌊x⌋ else ⌊x⌋ + 1

/-- Exponent of the spacing of binary64 values around `q`: `⌊log₂ |q|⌋ - 52` for
normal values, `-1074` in the subnormal range. -/
def quantumExp (q : ℚ) : ℤ :=
  max (Int.log 2 |q|) (-1022) - 52

/-- Rounding of a rational to binary64 precision (round to nearest, ties to even),
before the overflow check. -/
def roundQ (q : ℚ) : ℚ :=
  (roundHalfEven (q / (2 : ℚ) ^ quantumExp q) : ℚ) * (2 : ℚ) ^ quantumExp q

/-- A JavaScript number (IEEE 754 binary64): a finite value, given by its exact
rational value (`fin 0` is `+0`), negative zero, an infinity with its sign, or `NaN`.
The arithmetic below returns only representable values in `fin`. -/
inductive Dbl where
  | fin (q : ℚ)
  | negZero
  | inf (neg : Bool)
  | nan
deriving DecidableEq

namespace Dbl

/-- The sign bit. -/
def isNeg : Dbl → Bool
  | fin q => decide (q < 0)
  | negZero => true
  | inf neg => neg
  | nan => false

/-- Whether the value is `+0` or `-0`. -/
def isZero : Dbl → Bool
  | fin q => decide (q = 0)
  | negZero => true
  | _ => false

/-- The rational value of a finite number (`0` for the others). -/
def val : Dbl → ℚ
  | fin q => q
  | _ => 0

/-- A zero with the given sign bit. -/
def zero (neg : Bool) : Dbl :=
  if neg then negZero else fin 0

/-- The binary64 result of an operation whose exact result is `q`: rounded to
nearest-even, `±∞` on overflow; `negZ` is the sign bit of a result that is exactly
zero. -/
def round (negZ : Bool) (q : ℚ) : Dbl :=
  if (2 : ℚ) ^ (1024 : ℕ) ≤ |roundQ q| then inf (decide (q < 0))
  else if roundQ q = 0 then zero (decide (q < 0) || (decide (q = 0) && negZ))
  else fin (roundQ q)

/-- The binary64 product `x * y`. -/
def mul (x y : Dbl) : Dbl :=
  match x, y with
  | nan, _ => nan
  | _, nan => nan
  | inf s, y => if y.isZero then nan else inf (xor s y.isNeg)
  | x, inf t => if x.isZero then nan else inf (xor x.isNeg t)
  | x, y => round (xor x.isNeg y.isNeg) (x.val * y.val)

/-- The binary64 sum `x + y`. -/
def add (x y : Dbl) : Dbl :=
  match x, y with
  | nan, _ => nan
  | _, nan => nan
  | inf s, inf t => if s = t then inf s else nan
  | inf s, _ => inf s
  | _, inf t => inf t
  | x, y => round (x.isNeg && y.isNeg) (x.val + y.val)

/-- Unary minus. -/
def neg : Dbl → Dbl
  | fin q => if q = 0 then negZero else fin (-q)
  | negZero => fin 0
  | inf s => inf (!s)
  | nan => nan

/-- The binary64 difference `x - y`. -/
def sub (x y : Dbl) : Dbl :=
  add x (neg y)

/-- The binary64 quotient `x / y`. -/
def div (x y : Dbl) : Dbl :=
  match x, y with
  | nan, _ => nan
  | _, nan => nan
  | inf _, inf _ => nan
  | inf s, y => inf (xor s y.isNeg)
  | x, inf t => zero (xor x.isNeg t)
  | x, y =>
    if y.isZero then (if x.isZero then nan else inf (xor x.isNeg y.isNeg))
    else round (xor x.isNeg y.isNeg) (x.val / y.val)

/-- The comparison `x <= y` (false when an operand is `NaN`). -/
def le (x y : Dbl) : Bool :=
  match x, y with
  | nan, _ => false
  | _, nan => false
  | inf s, inf t => s || !t
  | inf s, _ => s
  | _, inf t => !t
  | x, y => decide (x.val ≤ y.val)

/-- The comparison `x < y` (false when an operand is `NaN`). -/
def lt (x y : Dbl) : Bool :=
  match x, y with
  | nan, _ => false
  | _, nan => false
  | inf s, inf t => s && !t
  | inf s, _ => s
  | _, inf t => !t
  | x, y => decide (x.val < y.val)

/-- The function `Math.floor`. -/
def floor : Dbl → Dbl
  | fin q => fin (⌊q⌋ : ℤ)
  | x => x

/-- A numeric literal of the source: the binary64 value nearest to the decimal. -/
def lit (q : ℚ) : Dbl :=
  round false q

/-- An integer-valued number such as a loop counter, an iteration budget or a canvas
dimension; these are exact in binary64 below `2^53`. -/
def ofNat (n : ℕ) : Dbl :=
  fin (n : ℚ)

/-- An integer as a number; exact in binary64 below `2^53` in magnitude. -/
def ofInt (n : ℤ) : Dbl :=
  fin (n : ℚ)

/-- The integer value of an integer-valued finite number, as needed for a loop bound
or an array size. -/
def toInt? : Dbl → Option ℤ
  | fin q => if (⌊q⌋ : ℚ) = q then some ⌊q⌋ else none
  | negZero => some 0
  | _ => none

/-- The conversion of a stored number by a `Uint8ClampedArray` (`ToUint8Clamp`):
`NaN` becomes 0, the value is clamped to `[0, 255]` and rounded, ties to even. -/
def toUint8Clamp : Dbl → ℤ
  | fin q => if q ≤ 0 then 0 else if 255 ≤ q then 255 else roundHalfEven q
  | negZero => 0
  | inf s => if s then 0 else 255
  | nan => 0

instance : Mul Dbl := ⟨mul⟩
instance : Add Dbl := ⟨add⟩
instance : Sub Dbl := ⟨sub⟩
instance : Div Dbl := ⟨div⟩
instance : Neg Dbl := ⟨neg⟩

end Dbl

/-! ## The component in binary64 arithmetic

The functions of `src/MandelbrotFractal.js` with every arithmetic operation rounded as
JavaScript rounds it. Loop counters, the iteration budget, raster sizes and array
indices are integers (all far below `2^53`, where binary64 is exact on them).
`Math.pow`, whose results ECMAScript leaves implementation-approximated, is a
parameter `pow` of the colour map. -/

namespace F64

open Dbl

/-- A pair `{ x, y }` of numbers. -/
structure Point where
  x : Dbl
  y : Dbl
deriving DecidableEq

/-- The `useState` cells read by the renderer and the handlers. -/
structure State where
  zoom : Dbl
  offset : Point
  dragging : Bool
  lastPos : Option Point
  maxIter : ℕ
  scale : Dbl
deriving DecidableEq

/-- The values passed to `useState` (source lines 5-10). -/
def initialState : State :=
  { zoom := lit 200, offset := { x := -lit 0.5, y := lit 0 }, dragging := false,
    lastPos := none, maxIter := 100, scale := lit 0.5 }

/-- The function `getHeatmapColor(t)` (lines 22-27). -/
def getHeatmapColor (pow : Dbl → Dbl → Dbl) (t : Dbl) : Dbl × Dbl × Dbl :=
  let r := floor (lit 255 * pow t (lit 3))
  let g := floor (lit 255 * pow t (lit 1.5))
  let b := floor (lit 255 * t)
  (r, g, b)

/-- The `while (a * a + b * b <= 4 && i < maxIter)` loop (lines 47-53), started in the
loop state `(a, b, i)`; the result is the counter `i` when the loop exits. -/
def escapeLoop (zx zy : Dbl) (maxIter : ℕ) (a b : Dbl) (i : ℕ) : ℕ :=
  if le (a * a + b * b) (lit 4) = true ∧ i < maxIter then
    let aa := a * a - b * b + zx
    let bb := lit 2 * a * b + zy
    escapeLoop zx zy maxIter aa bb (i + 1)
  else i
termination_by maxIter - i
decreasing_by omega

/-- The escape count of the point `(zx, zy)`: `let a = zx, b = zy, i = 0` followed by
the loop (lines 45-53). -/
def iterate (zx zy : Dbl) (maxIter : ℕ) : ℕ :=
  escapeLoop zx zy maxIter zx zy 0

/-- Raster dimension `Math.floor(canvas.width * scale)` (lines 35-36). -/
def rasterDim (canvasDim : ℕ) (scale : Dbl) : Dbl :=
  floor (ofNat canvasDim * scale)

/-- Render-space transform `(x - w / 2) / (zoom * scale) + offset.x` (line 43). -/
def fractalX (s : State) (w : Dbl) (x : Dbl) : Dbl :=
  (x - w / lit 2) / (s.zoom * s.scale) + s.offset.x

/-- Render-space transform `(y - h / 2) / (zoom * scale) + offset.y` (line 44). -/
def fractalY (s : State) (h : Dbl) (y : Dbl) : Dbl :=
  (y - h / lit 2) / (s.zoom * s.scale) + s.offset.y

/-- The colour the renderer writes for escape count `i` (lines 56-66). -/
def pixelColor (pow : Dbl → Dbl → Dbl) (i maxIter : ℕ) : Dbl × Dbl × Dbl :=
  if i = maxIter then (lit 0, lit 0, lit 0)
  else
    let t := ofNat i / ofNat maxIter
    getHeatmapColor pow t

/-- The assignment `data[k] = v` on a `Uint8ClampedArray`: the value is converted to
a byte, and a store outside the array is ignored. -/
def store (data : List ℤ) (k : ℤ) (v : Dbl) : List ℤ :=
  if 0 ≤ k then data.set k.toNat (toUint8Clamp v) else data

/-- The integer value of a raster dimension. -/
def dimInt (w : Dbl) : ℤ :=
  (toInt? w).getD 0

/-- Body of the inner `for` loop (lines 43-68) for the raster pixel `(x, y)`. -/
def renderPixel (pow : Dbl → Dbl → Dbl) (s : State) (w h : Dbl) (data : List ℤ)
    (y x : ℕ) : List ℤ :=
  let zx := fractalX s w (ofNat x)
  let zy := fractalY s h (ofNat y)
  let i := iterate zx zy s.maxIter
  let pixelIndex : ℤ := ((y : ℤ) * dimInt w + (x : ℤ)) * 4
  let c := pixelColor pow i s.maxIter
  let data := store data pixelIndex c.1
  let data := store data (pixelIndex + 1) c.2.1
  let data := store data (pixelIndex + 2) c.2.2
  store data (pixelIndex + 3) (lit 255)

/-- The inner loop `for (let x = 0; x < w; x++)` of row `y`. -/
def renderRow (pow : Dbl → Dbl → Dbl) (s : State) (w h : Dbl) (data : List ℤ)
    (y : ℕ) : List ℤ :=
  (List.range (dimInt w).toNat).foldl (fun d x => renderPixel pow s w h d y x) data

/-- The outer loop `for (let y = 0; y < h; y++)` over the buffer `data`. -/
def renderRows (pow : Dbl → Dbl → Dbl) (s : State) (w h : Dbl) (data : List ℤ) : List ℤ :=
  (List.range (dimInt h).toNat).foldl (fun d y => renderRow pow s w h d y) data

/-- The call `ctx.createImageData(w, h).data` (lines 38-39): a zero-filled byte array
of `4 * |w| * |h|` entries; `none` when the call throws, which it does for a
dimension that is zero, not finite or outside the 32-bit range, and for an array
length of `2^53` or more. (Browsers refuse sizes well below these bounds.) -/
def createImageData (w h : Dbl) : Option (List ℤ) :=
  match toInt? w, toInt? h with
  | some wi, some hi =>
    if wi = 0 ∨ hi = 0 ∨ wi < -2 ^ 31 ∨ 2 ^ 31 ≤ wi ∨ hi < -2 ^ 31 ∨ 2 ^ 31 ≤ hi
        ∨ 2 ^ 53 ≤ 4 * wi.natAbs * hi.natAbs then none
    else some (List.replicate (4 * wi.natAbs * hi.natAbs) (0 : ℤ))
  | _, _ => none

/-- The buffer `imageData.data` when the loops of `renderFractal` (lines 30-70) end,
for a canvas of `canvasWidth × canvasHeight`; `none` when `createImageData` throws. -/
def renderFractal (pow : Dbl → Dbl → Dbl) (s : State) (canvasWidth canvasHeight : ℕ) :
    Option (List ℤ) :=
  let w := rasterDim canvasWidth s.scale
  let h := rasterDim canvasHeight s.scale
  (createImageData w h).map (fun data => renderRows pow s w h data)

/-- The factor `e.deltaY > 0 ? 0.9 : 1.1` (line 114). -/
def wheelDelta (deltaY : Dbl) : Dbl :=
  if lt (lit 0) deltaY = true then lit 0.9 else lit 1.1

/-- Lines 111-124 of `handleWheel`, for a pointer at `(mouseX, mouseY)` on a canvas
of `canvasWidth × canvasHeight`: the new `zoom` and `offset`. -/
def wheelAt (canvasWidth canvasHeight : ℕ) (mouseX mouseY deltaY : Dbl) (s : State) : State :=
  let xBefore := (mouseX - ofNat canvasWidth / lit 2) / s.zoom + s.offset.x
  let yBefore := (mouseY - ofNat canvasHeight / lit 2) / s.zoom + s.offset.y
  let delta := wheelDelta deltaY
  let newZoom := s.zoom * delta
  let xAfter := (mouseX - ofNat canvasWidth / lit 2) / newZoom + s.offset.x
  let yAfter := (mouseY - ofNat canvasHeight / lit 2) / newZoom + s.offset.y
  { s with
    zoom := newZoom
    offset := { x := s.offset.x + (xBefore - xAfter), y := s.offset.y + (yBefore - yAfter) } }

/-- The fractal coordinate the renderer shows at device-pixel column `mouseX`: the
`w`-wide raster is stretched over the `canvasWidth`-wide canvas by `drawImage`
(line 74), so that column displays raster coordinate `mouseX * w / canvasWidth`. -/
def shownX (s : State) (canvasWidth : ℕ) (mouseX : Dbl) : Dbl :=
  let w := rasterDim canvasWidth s.scale
  fractalX s w (mouseX * w / ofNat canvasWidth)

/-- The state of a loop iteration that follows `(a, b)` for the point `(zx, zy)`. -/
def orbitStep (c z : Dbl × Dbl) : Dbl × Dbl :=
  (z.1 * z.1 - z.2 * z.2 + c.1, lit 2 * z.1 * z.2 + c.2)

/-- The binary64 orbit `z₀ = c`, `zₖ₊₁ = zₖ² + c`, with `zₖ² + c` evaluated as
`(a*a - b*b + zx, 2*a*b + zy)`. -/
def orbit (c : Dbl × Dbl) : ℕ → Dbl × Dbl
  | 0 => c
  | k + 1 => orbitStep c (orbit c k)

/-- The binary64 test `|z|² > 4`: the comparison `a*a + b*b <= 4` fails. -/
def escaped (z : Dbl × Dbl) : Bool :=
  !(le (z.1 * z.1 + z.2 * z.2) (lit 4))

/-- Reference escape count of the binary64 orbit: the least `k < maxIter` at which
the orbit has escaped when there is one, and `maxIter` otherwise. -/
def escapeRef (c : Dbl × Dbl) (maxIter : ℕ) : ℕ :=
  if h : ∃ k, k < maxIter ∧ escaped (orbit c k) = true then Nat.find h else maxIter

/-- The property of `Math.pow` the colour map relies on: an argument in `[0, 1]`
gives a result in `[0, 1]`. -/
def PowInUnit (pow : Dbl → Dbl → Dbl) : Prop :=
  ∀ (q : ℚ) (e : Dbl), 0 ≤ q → q ≤ 1 → ∃ p : ℚ, pow (fin q) e = fin p ∧ 0 ≤ p ∧ p ≤ 1

/-- The colour of raster pixel `(x, y)`: the colour written for the escape count of
the point that the render-space transform assigns to the pixel. -/
def pixelColorAt (pow : Dbl → Dbl → Dbl) (s : State) (w h : Dbl) (x y : ℕ) :
    Dbl × Dbl × Dbl :=
  pixelColor pow (iterate (fractalX s w (ofNat x)) (fractalY s h (ofNat y)) s.maxIter)
    s.maxIter

/-- The four buffer entries starting at index `k` are `(r, g, b, 255)`. -/
def HoldsPixel (data : List ℤ) (k : ℕ) (c : Dbl × Dbl × Dbl) : Prop :=
  (data[k]?).map ofInt = some c.1 ∧ (data[k + 1]?).map ofInt = some c.2.1 ∧
    (data[k + 2]?).map ofInt = some c.2.2 ∧ data[k + 3]? = some 255

/-- The viewport of the specification's scenario: zoom 200, offset `(-0.5, 0)`,
`maxIter = 100`, rendered at scale 1. -/
def scenarioState : State :=
  { initialState with scale := lit 1 }

end F64

/-! ## The rendered point under the cursor -/

/-- The raster dimension the code computes, `Math.floor(canvas.width * scale)` with
the product rounded to binary64, for a `scale` cell that holds the binary64 value
`scale`. -/
def rasterDim (canvasDim : ℕ) (scale : ℚ) : ℤ :=
  F64.dimInt (F64.rasterDim canvasDim (Dbl.fin scale))

/-- The fractal coordinate the renderer shows at device-pixel column `mouseX`, in
exact arithmetic: the `w`-wide raster is stretched over the `canvasWidth`-wide canvas
by `drawImage` (line 74), so that column displays raster coordinate
`mouseX * w / canvasWidth`. -/
def shownX (s : State) (canvasWidth : ℕ) (mouseX : ℚ) : ℚ :=
  let w := rasterDim canvasWidth s.scale
  fractalX s w (mouseX * (w : ℚ) / (canvasWidth : ℚ))

/-- The fractal coordinate the renderer shows at device-pixel row `mouseY`, in exact
arithmetic. -/
def shownY (s : State) (canvasHeight : ℕ) (mouseY : ℚ) : ℚ :=
  let h := rasterDim canvasHeight s.scale
  fractalY s h (mouseY * (h : ℚ) / (canvasHeight : ℚ))

/-! ## Event handlers: zoom, drag and reset -/

theorem wheelDelta_pos (deltaY : ℚ) : 0 < wheelDelta deltaY := by
  unfold wheelDelta
  split_ifs <;> norm_num

theorem wheelDelta_cases (deltaY : ℚ) :
    (0 < deltaY ∧ wheelDelta deltaY = 0.9) ∨ (¬ 0 < deltaY ∧ wheelDelta deltaY = 1.1) := by
  unfold wheelDelta
  by_cases h : deltaY > 0
  · left; exact ⟨h, by simp [h]⟩
  · right; exact ⟨h, by simp [h]⟩

theorem wheelAt_zoom (W H : ℕ) (mouseX mouseY deltaY : ℚ) (s : State) :
    (wheelAt W H mouseX mouseY deltaY s).zoom = s.zoom * wheelDelta deltaY := rfl

theorem wheelAt_offset_x (W H : ℕ) (mouseX mouseY deltaY : ℚ) (s : State) :
    (wheelAt W H mouseX mouseY deltaY s).offset.x =
      s.offset.x + (((mouseX - (W : ℚ) / 2) / s.zoom + s.offset.x) -
        ((mouseX - (W : ℚ) / 2) / (s.zoom * wheelDelta deltaY) + s.offset.x)) := rfl

theorem wheelAt_offset_y (W H : ℕ) (mouseX mouseY deltaY : ℚ) (s : State) :
    (wheelAt W H mouseX mouseY deltaY s).offset.y =
      s.offset.y + (((mouseY - (H : ℚ) / 2) / s.zoom + s.offset.y) -
        ((mouseY - (H : ℚ) / 2) / (s.zoom * wheelDelta deltaY) + s.offset.y)) := rfl

theorem wheelAt_scale (W H : ℕ) (mouseX mouseY deltaY : ℚ) (s : State) :
    (wheelAt W H mouseX mouseY deltaY s).scale = s.scale := rfl

/-- C1: zoom-to-cursor invariant of `handleWheel` in exact arithmetic. For every
`zoom > 0`, offset, canvas size, pointer position and wheel direction, the new zoom is
`zoom * 0.9` (when `deltaY > 0`) or `zoom * 1.1` (otherwise), and the pointer-space
fractal coordinate of the pointer, `(mouseX - W/2) / zoom + offset.x` (likewise for
`y` with `H`), is the same under the new zoom and offset as under the old ones. -/
theorem wheel_keeps_pointer_coordinate (s : State) (W H : ℕ) (mouseX mouseY deltaY : ℚ)
    (hz : 0 < s.zoom) :
    (wheelAt W H mouseX mouseY deltaY s).zoom
        = (if deltaY > 0 then s.zoom * 0.9 else s.zoom * 1.1) ∧
    (mouseX - (W : ℚ) / 2) / (wheelAt W H mouseX mouseY deltaY s).zoom
        + (wheelAt W H mouseX mouseY deltaY s).offset.x
      = (mouseX - (W : ℚ) / 2) / s.zoom + s.offset.x ∧
    (mouseY - (H : ℚ) / 2) / (wheelAt W H mouseX mouseY deltaY s).zoom
        + (wheelAt W H mouseX mouseY deltaY s).offset.y
      = (mouseY - (H : ℚ) / 2) / s.zoom + s.offset.y := by
  have _ := hz
  refine ⟨?_, ?_, ?_⟩
  · rw [wheelAt_zoom]
    unfold wheelDelta
    split_ifs <;> rfl
  · rw [wheelAt_zoom, wheelAt_offset_x]; ring
  · rw [wheelAt_zoom, wheelAt_offset_y]; ring

theorem wheel_keeps_pointer_coordinate_witness :
    (0 : ℚ) < initialState.zoom ∧
    ((wheelAt 800 600 100 50 1 initialState).zoom
        = (if (1 : ℚ) > 0 then initialState.zoom * 0.9 else initialState.zoom * 1.1) ∧
    ((100 : ℚ) - ((800 : ℕ) : ℚ) / 2) / (wheelAt 800 600 100 50 1 initialState).zoom
        + (wheelAt 800 600 100 50 1 initialState).offset.x
      = ((100 : ℚ) - ((800 : ℕ) : ℚ) / 2) / initialState.zoom + initialState.offset.x ∧
    ((50 : ℚ) - ((600 : ℕ) : ℚ) / 2) / (wheelAt 800 600 100 50 1 initialState).zoom
        + (wheelAt 800 600 100 50 1 initialState).offset.y
      = ((50 : ℚ) - ((600 : ℕ) : ℚ) / 2) / initialState.zoom + initialState.offset.y) :=
  ⟨by norm_num [initialState],
   wheel_keeps_pointer_coordinate initialState 800 600 100 50 1 (by norm_num [initialState])⟩

theorem step_zoom_pos (s : State) (e : Event) (hz : 0 < s.zoom) : 0 < (step s e).zoom := by
  cases e with
  | wheel c e =>
    show 0 < s.zoom * wheelDelta e.deltaY
    exact mul_pos hz (wheelDelta_pos _)
  | mouseDown e => exact hz
  | mouseUp => exact hz
  | mouseMove e =>
    show 0 < (handleMouseMove e s).zoom
    unfold handleMouseMove
    split <;> exact hz
  | mouseLeave => exact hz
  | zoomInClick =>
    show 0 < s.zoom * 1.5
    exact mul_pos hz (by norm_num)
  | resetViewClick =>
    show (0 : ℚ) < 200
    norm_num
  | scaleChange value => exact hz

theorem foldl_step_zoom_pos (events : List Event) :
    ∀ s : State, 0 < s.zoom → 0 < (events.foldl step s).zoom := by
  induction events with
  | nil => intro s hs; exact hs
  | cons e es ih =>
    intro s hs
    exact ih (step s e) (step_zoom_pos s e hs)

/-- C8: `zoom > 0` is an invariant in exact arithmetic. In the state reached from the
initial state by any finite sequence of wheel events, Zoom In clicks, Reset View
clicks, pointer down / move / up events and scale changes, `zoom > 0`; hence the
divisors `zoom` (in `handleWheel` and `handleMouseMove`) and `newZoom` (in
`handleWheel`, for either wheel direction) are not zero. -/
theorem zoom_pos_reachable (events : List Event) :
    0 < (run events).zoom ∧ (run events).zoom ≠ 0 ∧
      ∀ deltaY : ℚ, (run events).zoom * wheelDelta deltaY ≠ 0 := by
  have h : 0 < (run events).zoom :=
    foldl_step_zoom_pos events initialState (by norm_num [initialState])
  exact ⟨h, ne_of_gt h, fun d => ne_of_gt (mul_pos h (wheelDelta_pos d))⟩

/-- C9, as stated, fails: after `handleMouseDown` a drag is active (`dragging = true`,
`lastPos` captured, `maxIter = 30`), and a pointer-leave event on the canvas leaves
the drag active with `maxIter = 30`. -/
theorem mouseLeave_keeps_drag :
    (handleMouseDown { clientX := 100, clientY := 100 } initialState).dragging = true ∧
    (handleMouseDown { clientX := 100, clientY := 100 } initialState).lastPos
      = some { x := 100, y := 100 } ∧
    (handleMouseDown { clientX := 100, clientY := 100 } initialState).maxIter = 30 ∧
    (step (handleMouseDown { clientX := 100, clientY := 100 } initialState)
      Event.mouseLeave).dragging = true ∧
    (step (handleMouseDown { clientX := 100, clientY := 100 } initialState)
      Event.mouseLeave).lastPos ≠ none ∧
    (step (handleMouseDown { clientX := 100, clientY := 100 } initialState)
      Event.mouseLeave).maxIter = 30 := by
  refine ⟨rfl, rfl, rfl, rfl, ?_, rfl⟩
  simp [step, handleMouseDown]

/-- C9, amended: from every state (in particular every state in which a drag is
active), a pointer-up event on the canvas yields `dragging = false`, `lastPos = null`
and `maxIter = 100`, leaving zoom, offset and scale as they were; a pointer-leave event
on the canvas runs no handler and leaves the state unchanged. -/
theorem mouseUp_ends_drag (s : State) :
    (step s Event.mouseUp).dragging = false ∧
    (step s Event.mouseUp).lastPos = none ∧
    (step s Event.mouseUp).maxIter = 100 ∧
    (step s Event.mouseUp).zoom = s.zoom ∧
    (step s Event.mouseUp).offset = s.offset ∧
    (step s Event.mouseUp).scale = s.scale ∧
    step s Event.mouseLeave = s :=
  ⟨rfl, rfl, rfl, rfl, rfl, rfl, rfl⟩

/-- C10, as stated, fails: in the state after `handleMouseDown`, where `maxIter = 30`,
the Reset View handler leaves `maxIter = 30` instead of restoring `100`. -/
theorem resetView_keeps_maxIter :
    (resetView (handleMouseDown { clientX := 100, clientY := 100 } initialState)).maxIter = 30 ∧
    (resetView (handleMouseDown { clientX := 100, clientY := 100 } initialState)).maxIter
      ≠ 100 := by
  constructor
  · rfl
  · show (30 : ℕ) ≠ 100
    decide

/-- C10, amended: for every component state, after the Reset View handler
`zoom = 200`, `offset = (-0.5, 0)` and `scale = 0.5`, while `maxIter`, `dragging` and
`lastPos` keep their prior values; applying the handler a second time changes
nothing. -/
theorem resetView_restores_view (s : State) :
    (resetView s).zoom = 200 ∧
    (resetView s).offset.x = -0.5 ∧
    (resetView s).offset.y = 0 ∧
    (resetView s).scale = 0.5 ∧
    (resetView s).maxIter = s.maxIter ∧
    (resetView s).dragging = s.dragging ∧
    (resetView s).lastPos = s.lastPos ∧
    resetView (resetView s) = resetView s ∧
    step s Event.resetViewClick = resetView s :=
  ⟨rfl, rfl, rfl, rfl, rfl, rfl, rfl, rfl, rfl⟩

/-! ## Colour map -/

/-- The rational model of `Math.floor(255 * Math.pow(t, 1.5))` agrees with the real
number `⌊255 · t^(3/2)⌋` for every `t ≥ 0`. -/
theorem floorPow15_eq_real (t : ℚ) (ht : 0 ≤ t) :
    floorPow15 t = ⌊(255 : ℝ) * (t : ℝ) ^ ((3 : ℝ) / 2)⌋ := by
  have htR : (0 : ℝ) ≤ (t : ℝ) := by exact_mod_cast ht
  set u : ℝ := (255 : ℝ) * (t : ℝ) ^ ((3 : ℝ) / 2) with hu
  have hu0 : 0 ≤ u := mul_nonneg (by norm_num) (Real.rpow_nonneg htR _)
  have hsq : u ^ 2 = ((65025 * t ^ 3 : ℚ) : ℝ) := by
    have h1 : ((t : ℝ) ^ ((3 : ℝ) / 2)) ^ 2 = (t : ℝ) ^ 3 := by
      rw [← Real.rpow_natCast, ← Real.rpow_mul htR]
      norm_num
      exact_mod_cast Real.rpow_natCast (t : ℝ) 3
    rw [hu, mul_pow, h1]
    push_cast
    norm_num
  have hq0 : (0 : ℚ) ≤ 65025 * t ^ 3 := by positivity
  have hfl0 : 0 ≤ ⌊65025 * t ^ 3⌋ := Int.floor_nonneg.mpr hq0
  set m : ℕ := Int.toNat ⌊65025 * t ^ 3⌋ with hm
  have hmfl : ((m : ℤ)) = ⌊65025 * t ^ 3⌋ := Int.toNat_of_nonneg hfl0
  have hm_le : ((m : ℕ) : ℝ) ≤ u ^ 2 := by
    rw [hsq]
    have h : ((⌊65025 * t ^ 3⌋ : ℤ) : ℚ) ≤ 65025 * t ^ 3 := Int.floor_le _
    rw [← hmfl] at h
    exact_mod_cast h
  have hm_lt : u ^ 2 < ((m : ℕ) : ℝ) + 1 := by
    rw [hsq]
    have h : (65025 * t ^ 3 : ℚ) < ((⌊65025 * t ^ 3⌋ : ℤ) : ℚ) + 1 := Int.lt_floor_add_one _
    rw [← hmfl] at h
    exact_mod_cast h
  unfold floorPow15
  rw [← hm]
  symm
  rw [Int.floor_eq_iff]
  have hn1 : Nat.sqrt m * Nat.sqrt m ≤ m := Nat.sqrt_le m
  have hn2 : m < (Nat.sqrt m + 1) * (Nat.sqrt m + 1) := Nat.lt_succ_sqrt m
  have hn1R : ((Nat.sqrt m : ℕ) : ℝ) ^ 2 ≤ u ^ 2 := by
    have : ((Nat.sqrt m * Nat.sqrt m : ℕ) : ℝ) ≤ (m : ℝ) := by exact_mod_cast hn1
    calc ((Nat.sqrt m : ℕ) : ℝ) ^ 2 = ((Nat.sqrt m * Nat.sqrt m : ℕ) : ℝ) := by
          push_cast; ring
      _ ≤ (m : ℝ) := this
      _ ≤ u ^ 2 := hm_le
  have hn2R : u ^ 2 < (((Nat.sqrt m : ℕ) : ℝ) + 1) ^ 2 := by
    have : ((m : ℕ) : ℝ) + 1 ≤ (((Nat.sqrt m + 1) * (Nat.sqrt m + 1) : ℕ) : ℝ) := by
      exact_mod_cast hn2
    calc u ^ 2 < (m : ℝ) + 1 := hm_lt
      _ ≤ (((Nat.sqrt m + 1) * (Nat.sqrt m + 1) : ℕ) : ℝ) := this
      _ = (((Nat.sqrt m : ℕ) : ℝ) + 1) ^ 2 := by push_cast; ring
  have hs0 : (0 : ℝ) ≤ ((Nat.sqrt m : ℕ) : ℝ) := Nat.cast_nonneg _
  constructor
  · have := sq_le_sq.mp hn1R
    rw [abs_of_nonneg hs0, abs_of_nonneg hu0] at this
    exact_mod_cast this
  · have := sq_lt_sq.mp hn2R
    rw [abs_of_nonneg hu0, abs_of_nonneg (by linarith)] at this
    exact_mod_cast this

theorem floor_scaled_range (c : ℤ) (x : ℚ) (hc : 0 ≤ c) (hx0 : 0 ≤ x) (hx1 : x ≤ 1) :
    0 ≤ ⌊(c : ℚ) * x⌋ ∧ ⌊(c : ℚ) * x⌋ ≤ c := by
  have hcq : (0 : ℚ) ≤ (c : ℚ) := by exact_mod_cast hc
  constructor
  · exact Int.floor_nonneg.mpr (mul_nonneg hcq hx0)
  · have h : (c : ℚ) * x ≤ (c : ℚ) := by nlinarith
    have := Int.floor_mono h
    simpa using this

theorem floorPow15_range (t : ℚ) (ht1 : t ≤ 1) :
    0 ≤ floorPow15 t ∧ floorPow15 t ≤ 255 := by
  unfold floorPow15
  constructor
  · exact Int.natCast_nonneg _
  · have h3 : t ^ 3 ≤ 1 := by
      by_cases h0 : 0 ≤ t
      · exact pow_le_one₀ h0 ht1
      · have : t ^ 3 ≤ 0 := by
          have ht : t ≤ 0 := le_of_lt (not_le.mp h0)
          nlinarith [sq_nonneg t]
        linarith
    have hq : (65025 : ℚ) * t ^ 3 ≤ ((65025 : ℤ) : ℚ) := by
      push_cast
      linarith
    have hfl : ⌊(65025 : ℚ) * t ^ 3⌋ ≤ 65025 := by
      have := Int.floor_mono hq
      simpa using this
    have hm : Int.toNat ⌊(65025 : ℚ) * t ^ 3⌋ ≤ 255 * 255 := by
      omega
    have hsq : Nat.sqrt (Int.toNat ⌊(65025 : ℚ) * t ^ 3⌋) ≤ 255 := by
      calc Nat.sqrt (Int.toNat ⌊(65025 : ℚ) * t ^ 3⌋) ≤ Nat.sqrt (255 * 255) :=
            Nat.sqrt_le_sqrt hm
        _ = 255 := Nat.sqrt_eq 255
    exact_mod_cast hsq

theorem getHeatmapColor_range (t : ℚ) (ht0 : 0 ≤ t) (ht1 : t ≤ 1) :
    (0 ≤ (getHeatmapColor t).1 ∧ (getHeatmapColor t).1 ≤ 255) ∧
    (0 ≤ (getHeatmapColor t).2.1 ∧ (getHeatmapColor t).2.1 ≤ 255) ∧
    (0 ≤ (getHeatmapColor t).2.2 ∧ (getHeatmapColor t).2.2 ≤ 255) := by
  have h3 : t ^ 3 ≤ 1 := pow_le_one₀ ht0 ht1
  have h30 : 0 ≤ t ^ 3 := pow_nonneg ht0 3
  refine ⟨?_, floorPow15_range t ht1, ?_⟩
  · have := floor_scaled_range 255 (t ^ 3) (by norm_num) h30 h3
    simpa [getHeatmapColor] using this
  · have := floor_scaled_range 255 t (by norm_num) ht0 ht1
    simpa [getHeatmapColor] using this

theorem escapeFraction_range (i maxIter : ℕ) (hm : 0 < maxIter) (hi : i ≤ maxIter) :
    (0 : ℚ) ≤ (i : ℚ) / (maxIter : ℚ) ∧ (i : ℚ) / (maxIter : ℚ) ≤ 1 := by
  have hmq : (0 : ℚ) < (maxIter : ℚ) := by exact_mod_cast hm
  have hiq : (i : ℚ) ≤ (maxIter : ℚ) := by exact_mod_cast hi
  constructor
  · positivity
  · rw [div_le_one hmq]
    exact hiq

theorem pixelColor_range (i maxIter : ℕ) (hi : i ≤ maxIter) :
    (0 ≤ (pixelColor i maxIter).1 ∧ (pixelColor i maxIter).1 ≤ 255) ∧
    (0 ≤ (pixelColor i maxIter).2.1 ∧ (pixelColor i maxIter).2.1 ≤ 255) ∧
    (0 ≤ (pixelColor i maxIter).2.2 ∧ (pixelColor i maxIter).2.2 ≤ 255) := by
  unfold pixelColor
  by_cases h : i = maxIter
  · simp [h]
  · have hm : 0 < maxIter := by omega
    have ht := escapeFraction_range i maxIter hm hi
    simp only [h, if_false]
    exact getHeatmapColor_range _ ht.1 ht.2

theorem clampByte_of_range (v : ℤ) (h0 : 0 ≤ v) (h1 : v ≤ 255) : clampByte v = v := by
  unfold clampByte
  rw [min_eq_right h1, max_eq_right h0]

/-- C5: colour channels stay in range without a clamp. For every `maxIter > 0` and
escape count `i ≤ maxIter`, the colour the renderer writes is `(0, 0, 0)` when
`i = maxIter` and `getHeatmapColor (i / maxIter)` otherwise, each of its three
channels is an integer in `[0, 255]`, and the clamp of the byte array leaves it
unchanged; and `getHeatmapColor t` has all channels in `[0, 255]` for every `t` in
`[0, 1]`, with `getHeatmapColor 1 = (255, 255, 255)`. -/
theorem colour_channels_in_range (maxIter i : ℕ) (t : ℚ) (hm : 0 < maxIter)
    (hi : i ≤ maxIter) (ht0 : 0 ≤ t) (ht1 : t ≤ 1) :
    (i = maxIter → pixelColor i maxIter = (0, 0, 0)) ∧
    (i ≠ maxIter → pixelColor i maxIter =
      (⌊255 * ((i : ℚ) / (maxIter : ℚ)) ^ 3⌋, floorPow15 ((i : ℚ) / (maxIter : ℚ)),
        ⌊255 * ((i : ℚ) / (maxIter : ℚ))⌋)) ∧
    ((0 ≤ (pixelColor i maxIter).1 ∧ (pixelColor i maxIter).1 ≤ 255) ∧
     (0 ≤ (pixelColor i maxIter).2.1 ∧ (pixelColor i maxIter).2.1 ≤ 255) ∧
     (0 ≤ (pixelColor i maxIter).2.2 ∧ (pixelColor i maxIter).2.2 ≤ 255)) ∧
    (clampByte (pixelColor i maxIter).1 = (pixelColor i maxIter).1 ∧
     clampByte (pixelColor i maxIter).2.1 = (pixelColor i maxIter).2.1 ∧
     clampByte (pixelColor i maxIter).2.2 = (pixelColor i maxIter).2.2) ∧
    ((0 ≤ (getHeatmapColor t).1 ∧ (getHeatmapColor t).1 ≤ 255) ∧
     (0 ≤ (getHeatmapColor t).2.1 ∧ (getHeatmapColor t).2.1 ≤ 255) ∧
     (0 ≤ (getHeatmapColor t).2.2 ∧ (getHeatmapColor t).2.2 ≤ 255)) ∧
    ((0 ≤ (getHeatmapColor 1).1 ∧ (getHeatmapColor 1).1 ≤ 255) ∧
     (0 ≤ (getHeatmapColor 1).2.1 ∧ (getHeatmapColor 1).2.1 ≤ 255) ∧
     (0 ≤ (getHeatmapColor 1).2.2 ∧ (getHeatmapColor 1).2.2 ≤ 255)) := by
  have _ := hm
  have hp := pixelColor_range i maxIter hi
  refine ⟨?_, ?_, hp, ?_, getHeatmapColor_range t ht0 ht1,
    getHeatmapColor_range 1 (by norm_num) le_rfl⟩
  · intro h
    simp [pixelColor, h]
  · intro h
    simp [pixelColor, h, getHeatmapColor]
  · exact ⟨clampByte_of_range _ hp.1.1 hp.1.2, clampByte_of_range _ hp.2.1.1 hp.2.1.2,
      clampByte_of_range _ hp.2.2.1 hp.2.2.2⟩

theorem getHeatmapColor_half : getHeatmapColor (1 / 2) = (31, 90, 127) := by
  have hr : ⌊(255 : ℚ) * (1 / 2) ^ 3⌋ = 31 := by
    rw [Int.floor_eq_iff]; norm_num
  have hb : ⌊(255 : ℚ) * (1 / 2)⌋ = 127 := by
    rw [Int.floor_eq_iff]; norm_num
  have hg0 : ⌊(65025 : ℚ) * (1 / 2) ^ 3⌋ = 8128 := by
    rw [Int.floor_eq_iff]; norm_num
  have hg1 : Nat.sqrt 8128 = 90 :=
    (Nat.eq_sqrt.mpr ⟨by norm_num, by norm_num⟩).symm
  have hg : floorPow15 (1 / 2) = 90 := by
    unfold floorPow15
    rw [hg0]
    show ((Nat.sqrt 8128 : ℕ) : ℤ) = 90
    rw [hg1]; rfl
  unfold getHeatmapColor
  simp only [hr, hb, hg]

theorem colour_channels_in_range_witness :
    pixelColor 50 100 = (31, 90, 127) ∧
    ((0 ≤ (getHeatmapColor 1).1 ∧ (getHeatmapColor 1).1 ≤ 255) ∧
     (0 ≤ (getHeatmapColor 1).2.1 ∧ (getHeatmapColor 1).2.1 ≤ 255) ∧
     (0 ≤ (getHeatmapColor 1).2.2 ∧ (getHeatmapColor 1).2.2 ≤ 255)) := by
  have h := colour_channels_in_range 100 50 (1 / 2) (by decide) (by decide)
    (by norm_num) (by norm_num)
  refine ⟨?_, h.2.2.2.2.2⟩
  have hc : pixelColor 50 100 = getHeatmapColor (1 / 2) := by
    unfold pixelColor
    norm_num
  rw [hc, getHeatmapColor_half]

/-- C7: `getHeatmapColor` is monotone. For all `t1 ≤ t2` in `[0, 1)`, each of the three
channels of `getHeatmapColor t1` is at most the corresponding channel of
`getHeatmapColor t2`. -/
theorem getHeatmapColor_monotone (t1 t2 : ℚ) (h0 : 0 ≤ t1) (h12 : t1 ≤ t2) (h2 : t2 < 1) :
    (getHeatmapColor t1).1 ≤ (getHeatmapColor t2).1 ∧
    (getHeatmapColor t1).2.1 ≤ (getHeatmapColor t2).2.1 ∧
    (getHeatmapColor t1).2.2 ≤ (getHeatmapColor t2).2.2 := by
  have _ := h2
  have h3 : t1 ^ 3 ≤ t2 ^ 3 := pow_le_pow_left₀ h0 h12 3
  refine ⟨?_, ?_, ?_⟩
  · show ⌊255 * t1 ^ 3⌋ ≤ ⌊255 * t2 ^ 3⌋
    exact Int.floor_mono (by linarith)
  · show floorPow15 t1 ≤ floorPow15 t2
    unfold floorPow15
    have hfl : ⌊65025 * t1 ^ 3⌋ ≤ ⌊65025 * t2 ^ 3⌋ := Int.floor_mono (by linarith)
    have hnat : Int.toNat ⌊65025 * t1 ^ 3⌋ ≤ Int.toNat ⌊65025 * t2 ^ 3⌋ :=
      Int.toNat_le_toNat hfl
    exact_mod_cast Nat.sqrt_le_sqrt hnat
  · show ⌊255 * t1⌋ ≤ ⌊255 * t2⌋
    exact Int.floor_mono (by linarith)

theorem getHeatmapColor_monotone_witness :
    (getHeatmapColor 0).1 ≤ (getHeatmapColor (1 / 2)).1 ∧
    (getHeatmapColor 0).2.1 ≤ (getHeatmapColor (1 / 2)).2.1 ∧
    (getHeatmapColor 0).2.2 ≤ (getHeatmapColor (1 / 2)).2.2 :=
  getHeatmapColor_monotone 0 (1 / 2) (by norm_num) (by norm_num) (by norm_num)

/-! ## Escape-time loop -/

theorem orbit_succ_of_eq (zx zy a b : ℚ) (i : ℕ) (h : orbit (zx, zy) i = (a, b)) :
    orbit (zx, zy) (i + 1) = (a * a - b * b + zx, 2 * a * b + zy) := by
  show csq (orbit (zx, zy) i) + (zx, zy) = _
  rw [h]
  ext
  · simp [csq]
  · simp [csq]; ring

theorem normSq_pair (a b : ℚ) : normSq (a, b) = a * a + b * b := by
  unfold normSq
  ring

/-- Invariant of the loop: started at `(zₖ, k)` with no escape before `k`, it exits
with a counter `r ≤ maxIter` such that no `zⱼ` with `j < r` has escaped and, when
`r < maxIter`, `z_r` has. -/
theorem escapeLoop_spec (zx zy : ℚ) (maxIter : ℕ) :
    ∀ (d i : ℕ) (a b : ℚ), maxIter - i = d → i ≤ maxIter → orbit (zx, zy) i = (a, b) →
      (∀ k, k < i → normSq (orbit (zx, zy) k) ≤ 4) →
      escapeLoop zx zy maxIter a b i ≤ maxIter ∧
      (∀ k, k < escapeLoop zx zy maxIter a b i → normSq (orbit (zx, zy) k) ≤ 4) ∧
      (escapeLoop zx zy maxIter a b i < maxIter →
        4 < normSq (orbit (zx, zy) (escapeLoop zx zy maxIter a b i))) := by
  intro d
  induction d with
  | zero =>
    intro i a b hd hi ho hk
    have hnot : ¬ (a * a + b * b ≤ 4 ∧ i < maxIter) := by
      intro h; omega
    rw [escapeLoop, if_neg hnot]
    exact ⟨hi, hk, fun h => by omega⟩
  | succ d ih =>
    intro i a b hd hi ho hk
    rw [escapeLoop]
    by_cases hc : a * a + b * b ≤ 4 ∧ i < maxIter
    · rw [if_pos hc]
      apply ih (i + 1) _ _ (by omega) (by omega) (orbit_succ_of_eq zx zy a b i ho)
      intro k hki
      by_cases hlt : k < i
      · exact hk k hlt
      · have hke : k = i := by omega
        rw [hke, ho, normSq_pair]
        exact hc.1
    · rw [if_neg hc]
      refine ⟨hi, hk, ?_⟩
      intro hlt
      rw [ho, normSq_pair]
      by_contra hle
      exact hc ⟨not_lt.mp hle, hlt⟩

theorem iterate_spec (zx zy : ℚ) (maxIter : ℕ) :
    iterate zx zy maxIter ≤ maxIter ∧
    (∀ k, k < iterate zx zy maxIter → normSq (orbit (zx, zy) k) ≤ 4) ∧
    (iterate zx zy maxIter < maxIter →
      4 < normSq (orbit (zx, zy) (iterate zx zy maxIter))) :=
  escapeLoop_spec zx zy maxIter maxIter 0 zx zy (by omega) (Nat.zero_le _) rfl
    (fun k hk => absurd hk (Nat.not_lt_zero k))

/-- C6: the escape count is monotone in the iteration budget. For every point and all
budgets `n ≤ m`, the count with budget `n` is `min n` of the count with budget `m`;
hence it is non-decreasing in the budget, and equal to the count with budget `m`
once `n` exceeds that count. -/
theorem iterate_budget_min (zx zy : ℚ) (n m : ℕ) (hnm : n ≤ m) :
    iterate zx zy n = min n (iterate zx zy m) ∧
    iterate zx zy n ≤ iterate zx zy m ∧
    (iterate zx zy m < n → iterate zx zy n = iterate zx zy m) := by
  obtain ⟨hn1, hn2, hn3⟩ := iterate_spec zx zy n
  obtain ⟨hm1, hm2, hm3⟩ := iterate_spec zx zy m
  have key : iterate zx zy n = min n (iterate zx zy m) := by
    by_cases hcase : iterate zx zy m ≤ n
    · rw [min_eq_right hcase]
      rcases Nat.lt_trichotomy (iterate zx zy n) (iterate zx zy m) with h | h | h
      · exact absurd (hn3 (by omega)) (not_lt.mpr (hm2 _ h))
      · exact h
      · exact absurd (hm3 (by omega)) (not_lt.mpr (hn2 _ h))
    · have hlt : n < iterate zx zy m := not_le.mp hcase
      rw [min_eq_left (le_of_lt hlt)]
      by_contra hne
      have hlt2 : iterate zx zy n < n := by omega
      exact absurd (hn3 hlt2) (not_lt.mpr (hm2 _ (by omega)))
  refine ⟨key, ?_, ?_⟩
  · rw [key]; exact min_le_right _ _
  · intro h
    rw [key]; exact min_eq_right (le_of_lt h)

theorem iterate_half_half : iterate (1 / 2) (1 / 2) 20 = 4 := by
  unfold iterate
  rw [escapeLoop]; norm_num
  rw [escapeLoop]; norm_num
  rw [escapeLoop]; norm_num
  rw [escapeLoop]; norm_num
  rw [escapeLoop]; norm_num

theorem iterate_budget_min_witness :
    iterate (1 / 2) (1 / 2) 3 = min 3 4 ∧
    iterate (1 / 2) (1 / 2) 3 ≤ iterate (1 / 2) (1 / 2) 20 ∧
    (iterate (1 / 2) (1 / 2) 20 < 3 → iterate (1 / 2) (1 / 2) 3 = iterate (1 / 2) (1 / 2) 20) := by
  have h := iterate_budget_min (1 / 2) (1 / 2) 3 20 (by decide)
  rw [iterate_half_half] at h
  rw [iterate_half_half]
  exact h

/-! ## Rounding to binary64 -/

theorem roundHalfEven_cases (x : ℚ) :
    (roundHalfEven x = ⌊x⌋ ∧ x - (⌊x⌋ : ℚ) ≤ 1 / 2) ∨
    (roundHalfEven x = ⌊x⌋ + 1 ∧ 1 / 2 ≤ x - (⌊x⌋ : ℚ)) := by
  unfold roundHalfEven
  by_cases h1 : x - (⌊x⌋ : ℚ) < 1 / 2
  · left; rw [if_pos h1]; exact ⟨rfl, le_of_lt h1⟩
  · rw [if_neg h1]
    by_cases h2 : 1 / 2 < x - (⌊x⌋ : ℚ)
    · right; rw [if_pos h2]; exact ⟨rfl, le_of_lt h2⟩
    · rw [if_neg h2]
      have heq : x - (⌊x⌋ : ℚ) = 1 / 2 := le_antisymm (not_lt.mp h2) (not_lt.mp h1)
      by_cases h3 : ⌊x⌋ % 2 = 0
      · left; rw [if_pos h3]; exact ⟨rfl, le_of_eq heq⟩
      · right; rw [if_neg h3]; exact ⟨rfl, le_of_eq heq.symm⟩

theorem roundHalfEven_le (x : ℚ) (M : ℤ) (h : x ≤ (M : ℚ)) : roundHalfEven x ≤ M := by
  have hfl : ⌊x⌋ ≤ M := Int.floor_le_iff.mpr (by linarith [Int.floor_le x] : x < (M : ℚ) + 1) |>.trans le_rfl
  rcases roundHalfEven_cases x with ⟨he, _⟩ | ⟨he, hfrac⟩
  · rw [he]; exact hfl
  · rw [he]
    have hlt : (⌊x⌋ : ℚ) < (M : ℚ) := by linarith
    have : ⌊x⌋ < M := by exact_mod_cast hlt
    omega

theorem le_roundHalfEven (x : ℚ) (M : ℤ) (h : (M : ℚ) ≤ x) : M ≤ roundHalfEven x := by
  have hfl : M ≤ ⌊x⌋ := Int.le_floor.mpr h
  rcases roundHalfEven_cases x with ⟨he, _⟩ | ⟨he, _⟩
  · rw [he]; exact hfl
  · rw [he]; omega

theorem roundHalfEven_intCast (n : ℤ) : roundHalfEven (n : ℚ) = n :=
  le_antisymm (roundHalfEven_le _ n le_rfl) (le_roundHalfEven _ n le_rfl)

theorem roundHalfEven_near (x : ℚ) (n : ℤ) (h : |x - (n : ℚ)| < 1 / 2) :
    roundHalfEven x = n := by
  have h' := abs_lt.mp h
  have hfl1 : x < (⌊x⌋ : ℚ) + 1 := Int.lt_floor_add_one x
  have hfl2 : (⌊x⌋ : ℚ) ≤ x := Int.floor_le x
  rcases roundHalfEven_cases x with ⟨he, hfrac⟩ | ⟨he, hfrac⟩
  · rw [he]
    have a : (⌊x⌋ : ℚ) < (n : ℚ) + 1 := by linarith
    have b : (n : ℚ) - 1 < (⌊x⌋ : ℚ) := by linarith
    have a' : ⌊x⌋ < n + 1 := by exact_mod_cast a
    have b' : n - 1 < ⌊x⌋ := by exact_mod_cast b
    omega
  · rw [he]
    have a : (⌊x⌋ : ℚ) + 1 < (n : ℚ) + 1 := by linarith
    have b : (n : ℚ) - 1 < (⌊x⌋ : ℚ) + 1 := by linarith
    have a' : ⌊x⌋ + 1 < n + 1 := by exact_mod_cast a
    have b' : n - 1 < ⌊x⌋ + 1 := by exact_mod_cast b
    omega

theorem roundHalfEven_tie (x : ℚ) (n : ℤ) (hn : n % 2 = 0) (hx : |x - (n : ℚ)| = 1 / 2) :
    roundHalfEven x = n := by
  rcases abs_eq (by norm_num : (0 : ℚ) ≤ 1 / 2) |>.mp hx with h | h
  · have hxe : x = (n : ℚ) + 1 / 2 := by linarith
    have hfl : ⌊x⌋ = n := by
      rw [Int.floor_eq_iff, hxe]; constructor <;> linarith
    unfold roundHalfEven
    rw [hfl]
    have hfrac : x - (n : ℚ) = 1 / 2 := by linarith
    rw [hfrac, if_neg (lt_irrefl _), if_neg (lt_irrefl _), if_pos hn]
  · have hxe : x = (n : ℚ) - 1 / 2 := by linarith
    have hfl : ⌊x⌋ = n - 1 := by
      rw [Int.floor_eq_iff, hxe]; push_cast; constructor <;> linarith
    unfold roundHalfEven
    rw [hfl]
    have hfrac : x - ((n - 1 : ℤ) : ℚ) = 1 / 2 := by push_cast; linarith
    rw [hfrac, if_neg (lt_irrefl _), if_neg (lt_irrefl _)]
    have hodd : ¬ ((n - 1) % 2 = 0) := by omega
    rw [if_neg hodd]
    ring

theorem log_abs_eq (q : ℚ) (e : ℤ) (h1 : (2 : ℚ) ^ e ≤ |q|) (h2 : |q| < (2 : ℚ) ^ (e + 1)) :
    Int.log 2 |q| = e := by
  have hpos : 0 < |q| := lt_of_lt_of_le (by positivity) h1
  have a : e ≤ Int.log 2 |q| :=
    (Int.zpow_le_iff_le_log (by norm_num) hpos).mp (by exact_mod_cast h1)
  have b : Int.log 2 |q| < e + 1 :=
    (Int.lt_zpow_iff_log_lt (by norm_num) hpos).mp (by exact_mod_cast h2)
  omega

theorem roundQ_zero : roundQ 0 = 0 := by
  unfold roundQ
  rw [zero_div]
  have : roundHalfEven (0 : ℚ) = 0 := by
    have := roundHalfEven_intCast 0
    simpa using this
  rw [this]
  simp

/-- Evaluation of the rounding of a value of the normal range from its binary
exponent `e` and the integer `n` to which `q / 2^(e - 52)` rounds. -/
theorem roundQ_eval (q : ℚ) (e n : ℤ) (h1 : (2 : ℚ) ^ e ≤ |q|) (h2 : |q| < (2 : ℚ) ^ (e + 1))
    (he : -1022 ≤ e) (hn : roundHalfEven (q / (2 : ℚ) ^ (e - 52)) = n) :
    roundQ q = (n : ℚ) * (2 : ℚ) ^ (e - 52) := by
  have hq : quantumExp q = e - 52 := by
    unfold quantumExp
    rw [log_abs_eq q e h1 h2, max_eq_left he]
  unfold roundQ
  rw [hq, hn]

theorem quantumExp_ge (q : ℚ) : -1074 ≤ quantumExp q := by
  unfold quantumExp
  have := le_max_right (Int.log 2 |q|) (-1022)
  omega

theorem two_zpow_pos (k : ℤ) : (0 : ℚ) < (2 : ℚ) ^ k := zpow_pos (by norm_num) k

/-- An integer multiple of `2^k` is an integer multiple of every finer `2^E`. -/
theorem dyadic_div (N k E : ℤ) (h : E ≤ k) :
    ((N * 2 ^ (k - E).toNat : ℤ) : ℚ) = (N : ℚ) * (2 : ℚ) ^ k / (2 : ℚ) ^ E := by
  have h2 : (2 : ℚ) ≠ 0 := by norm_num
  have hk : ((k - E).toNat : ℤ) = k - E := Int.toNat_of_nonneg (by omega)
  have hpow : (2 : ℚ) ^ (k - E).toNat = (2 : ℚ) ^ k / (2 : ℚ) ^ E := by
    rw [← zpow_natCast, hk, zpow_sub₀ h2]
  push_cast
  rw [hpow]
  ring

/-- Outside the subnormal range the spacing is `2^(e - 52)` with `2^e ≤ |q|`. -/
theorem zpow_quantum_le_abs (q : ℚ) (hq : q ≠ 0) (k : ℤ) (hk : -1074 ≤ k)
    (hlt : k < quantumExp q) : (2 : ℚ) ^ (quantumExp q + 52) ≤ |q| := by
  have hpos : 0 < |q| := abs_pos.mpr hq
  have hlog : quantumExp q + 52 = Int.log 2 |q| := by
    unfold quantumExp at hlt ⊢
    rcases max_cases (Int.log 2 |q|) (-1022) with ⟨hm, _⟩ | ⟨hm, _⟩
    · rw [hm]; omega
    · rw [hm] at hlt; omega
  rw [hlog]
  exact_mod_cast Int.zpow_log_le_self (b := 2) (by norm_num) hpos

/-- A representable bound `N * 2^k` that is coarser than the spacing at `q` is at
most `2^e ≤ |q|` in magnitude. -/
theorem coarse_bound_le (q : ℚ) (N k : ℤ) (hN : |N| ≤ 2 ^ 53) (hlt : k < quantumExp q) :
    |(N : ℚ) * (2 : ℚ) ^ k| ≤ (2 : ℚ) ^ (quantumExp q + 52) := by
  have h2 : (2 : ℚ) ≠ 0 := by norm_num
  have hNq : |(N : ℚ)| ≤ (2 : ℚ) ^ (53 : ℤ) := by
    have : ((|N| : ℤ) : ℚ) ≤ ((2 ^ 53 : ℤ) : ℚ) := by exact_mod_cast hN
    rw [Int.cast_abs] at this
    norm_num at this ⊢
    exact this
  have hk : (2 : ℚ) ^ k ≤ (2 : ℚ) ^ (quantumExp q - 1) :=
    zpow_le_zpow_right₀ (by norm_num) (by omega)
  have hsplit : (2 : ℚ) ^ (quantumExp q + 52) = (2 : ℚ) ^ (53 : ℤ) * (2 : ℚ) ^ (quantumExp q - 1) := by
    rw [← zpow_add₀ h2]
    congr 1
    ring
  rw [abs_mul, abs_of_pos (two_zpow_pos k), hsplit]
  exact mul_le_mul hNq hk (le_of_lt (two_zpow_pos k)) (by positivity)

theorem zpow_quantum_split (E : ℤ) :
    (2 : ℚ) ^ (E + 52) = ((2 ^ 52 : ℤ) : ℚ) * (2 : ℚ) ^ E := by
  have h2 : (2 : ℚ) ≠ 0 := by norm_num
  rw [add_comm, zpow_add₀ h2]
  norm_num

/-- Rounding does not cross a representable value from below. -/
theorem roundQ_le (q : ℚ) (N k : ℤ) (hN : |N| ≤ 2 ^ 53) (hk : -1074 ≤ k)
    (h : q ≤ (N : ℚ) * (2 : ℚ) ^ k) : roundQ q ≤ (N : ℚ) * (2 : ℚ) ^ k := by
  by_cases hq0 : q = 0
  · rw [hq0, roundQ_zero]; rw [hq0] at h; exact h
  have hE := two_zpow_pos (quantumExp q)
  by_cases hcase : quantumExp q ≤ k
  · have hM := dyadic_div N k (quantumExp q) hcase
    have hle : q / (2 : ℚ) ^ quantumExp q ≤ ((N * 2 ^ (k - quantumExp q).toNat : ℤ) : ℚ) := by
      rw [hM]
      exact div_le_div_of_nonneg_right h (le_of_lt hE)
    have hr := roundHalfEven_le _ _ hle
    have hr' : ((roundHalfEven (q / (2 : ℚ) ^ quantumExp q) : ℤ) : ℚ)
        ≤ ((N * 2 ^ (k - quantumExp q).toNat : ℤ) : ℚ) := by exact_mod_cast hr
    unfold roundQ
    calc ((roundHalfEven (q / (2 : ℚ) ^ quantumExp q) : ℤ) : ℚ) * (2 : ℚ) ^ quantumExp q
        ≤ ((N * 2 ^ (k - quantumExp q).toNat : ℤ) : ℚ) * (2 : ℚ) ^ quantumExp q :=
          mul_le_mul_of_nonneg_right hr' (le_of_lt hE)
      _ = (N : ℚ) * (2 : ℚ) ^ k := by
          rw [hM]; field_simp
  · have hlt : k < quantumExp q := not_le.mp hcase
    have hB := coarse_bound_le q N k hN hlt
    have hqa := zpow_quantum_le_abs q hq0 k hk hlt
    have hsplit := zpow_quantum_split (quantumExp q)
    rcases lt_or_gt_of_ne hq0 with hneg | hpos
    · have hqle : q ≤ -(2 : ℚ) ^ (quantumExp q + 52) := by
        rw [abs_of_neg hneg] at hqa; linarith
      have hle : q / (2 : ℚ) ^ quantumExp q ≤ ((-(2 ^ 52) : ℤ) : ℚ) := by
        rw [div_le_iff₀ hE]
        have : ((-(2 ^ 52) : ℤ) : ℚ) * (2 : ℚ) ^ quantumExp q
            = -(2 : ℚ) ^ (quantumExp q + 52) := by
          rw [hsplit]; push_cast; ring
        rw [this]; exact hqle
      have hr := roundHalfEven_le _ _ hle
      have hr' : ((roundHalfEven (q / (2 : ℚ) ^ quantumExp q) : ℤ) : ℚ)
          ≤ ((-(2 ^ 52) : ℤ) : ℚ) := by exact_mod_cast hr
      have hBl := (abs_le.mp hB).1
      unfold roundQ
      calc ((roundHalfEven (q / (2 : ℚ) ^ quantumExp q) : ℤ) : ℚ) * (2 : ℚ) ^ quantumExp q
          ≤ ((-(2 ^ 52) : ℤ) : ℚ) * (2 : ℚ) ^ quantumExp q :=
            mul_le_mul_of_nonneg_right hr' (le_of_lt hE)
        _ = -(2 : ℚ) ^ (quantumExp q + 52) := by rw [hsplit]; push_cast; ring
        _ ≤ (N : ℚ) * (2 : ℚ) ^ k := hBl
    · have hBu := (abs_le.mp hB).2
      rw [abs_of_pos hpos] at hqa
      have hqeq : q = (2 : ℚ) ^ (quantumExp q + 52) := le_antisymm (le_trans h hBu) hqa
      have hBeq : (N : ℚ) * (2 : ℚ) ^ k = q := le_antisymm (by rw [hqeq] at h ⊢; exact hBu) h
      have hdiv : q / (2 : ℚ) ^ quantumExp q = ((2 ^ 52 : ℤ) : ℚ) := by
        rw [div_eq_iff (ne_of_gt hE), ← hsplit]; exact hqeq
      unfold roundQ
      rw [hdiv, roundHalfEven_intCast, ← hsplit, ← hqeq, hBeq]

/-- Rounding does not cross a representable value from above. -/
theorem le_roundQ (q : ℚ) (N k : ℤ) (hN : |N| ≤ 2 ^ 53) (hk : -1074 ≤ k)
    (h : (N : ℚ) * (2 : ℚ) ^ k ≤ q) : (N : ℚ) * (2 : ℚ) ^ k ≤ roundQ q := by
  by_cases hq0 : q = 0
  · rw [hq0, roundQ_zero]; rw [hq0] at h; exact h
  have hE := two_zpow_pos (quantumExp q)
  by_cases hcase : quantumExp q ≤ k
  · have hM := dyadic_div N k (quantumExp q) hcase
    have hle : ((N * 2 ^ (k - quantumExp q).toNat : ℤ) : ℚ) ≤ q / (2 : ℚ) ^ quantumExp q := by
      rw [hM]
      exact div_le_div_of_nonneg_right h (le_of_lt hE)
    have hr := le_roundHalfEven _ _ hle
    have hr' : ((N * 2 ^ (k - quantumExp q).toNat : ℤ) : ℚ)
        ≤ ((roundHalfEven (q / (2 : ℚ) ^ quantumExp q) : ℤ) : ℚ) := by exact_mod_cast hr
    unfold roundQ
    calc (N : ℚ) * (2 : ℚ) ^ k
        = ((N * 2 ^ (k - quantumExp q).toNat : ℤ) : ℚ) * (2 : ℚ) ^ quantumExp q := by
          rw [hM]; field_simp
      _ ≤ ((roundHalfEven (q / (2 : ℚ) ^ quantumExp q) : ℤ) : ℚ) * (2 : ℚ) ^ quantumExp q :=
          mul_le_mul_of_nonneg_right hr' (le_of_lt hE)
  · have hlt : k < quantumExp q := not_le.mp hcase
    have hB := coarse_bound_le q N k hN hlt
    have hqa := zpow_quantum_le_abs q hq0 k hk hlt
    have hsplit := zpow_quantum_split (quantumExp q)
    rcases lt_or_gt_of_ne hq0 with hneg | hpos
    · have hBl := (abs_le.mp hB).1
      rw [abs_of_neg hneg] at hqa
      have hqeq : q = -(2 : ℚ) ^ (quantumExp q + 52) :=
        le_antisymm (by linarith) (le_trans hBl h)
      have hBeq : (N : ℚ) * (2 : ℚ) ^ k = q :=
        le_antisymm h (by rw [hqeq] at h ⊢; exact hBl)
      have hdiv : q / (2 : ℚ) ^ quantumExp q = ((-(2 ^ 52) : ℤ) : ℚ) := by
        rw [div_eq_iff (ne_of_gt hE)]
        have : ((-(2 ^ 52) : ℤ) : ℚ) * (2 : ℚ) ^ quantumExp q
            = -(2 : ℚ) ^ (quantumExp q + 52) := by
          rw [hsplit]; push_cast; ring
        rw [this]; exact hqeq
      have hback : ((-(2 ^ 52) : ℤ) : ℚ) * (2 : ℚ) ^ quantumExp q = q := by
        rw [← hdiv]; field_simp
      unfold roundQ
      rw [hdiv, roundHalfEven_intCast, hback, hBeq]
    · rw [abs_of_pos hpos] at hqa
      have hle : ((2 ^ 52 : ℤ) : ℚ) ≤ q / (2 : ℚ) ^ quantumExp q := by
        rw [le_div_iff₀ hE, ← hsplit]; exact hqa
      have hr := le_roundHalfEven _ _ hle
      have hr' : ((2 ^ 52 : ℤ) : ℚ)
          ≤ ((roundHalfEven (q / (2 : ℚ) ^ quantumExp q) : ℤ) : ℚ) := by exact_mod_cast hr
      have hBu := (abs_le.mp hB).2
      unfold roundQ
      calc (N : ℚ) * (2 : ℚ) ^ k ≤ (2 : ℚ) ^ (quantumExp q + 52) := hBu
        _ = ((2 ^ 52 : ℤ) : ℚ) * (2 : ℚ) ^ quantumExp q := hsplit
        _ ≤ ((roundHalfEven (q / (2 : ℚ) ^ quantumExp q) : ℤ) : ℚ) * (2 : ℚ) ^ quantumExp q :=
            mul_le_mul_of_nonneg_right hr' (le_of_lt hE)

/-! ## Binary64 operations on finite values -/

theorem dbl_mul_fin (a b : ℚ) :
    Dbl.fin a * Dbl.fin b = Dbl.round (xor (decide (a < 0)) (decide (b < 0))) (a * b) := rfl

theorem dbl_add_fin (a b : ℚ) :
    Dbl.fin a + Dbl.fin b = Dbl.round (decide (a < 0) && decide (b < 0)) (a + b) := rfl

theorem dbl_neg_fin (a : ℚ) (h : a ≠ 0) : -Dbl.fin a = Dbl.fin (-a) := by
  show Dbl.neg (Dbl.fin a) = _
  simp only [Dbl.neg, if_neg h]

theorem dbl_sub_fin (a b : ℚ) (h : b ≠ 0) :
    Dbl.fin a - Dbl.fin b = Dbl.round (decide (a < 0) && decide (-b < 0)) (a - b) := by
  show Dbl.add (Dbl.fin a) (Dbl.neg (Dbl.fin b)) = _
  simp only [Dbl.neg, if_neg h, sub_eq_add_neg]
  rfl

theorem dbl_div_fin (a b : ℚ) (h : b ≠ 0) :
    Dbl.fin a / Dbl.fin b = Dbl.round (xor (decide (a < 0)) (decide (b < 0))) (a / b) := by
  show Dbl.div (Dbl.fin a) (Dbl.fin b) = _
  unfold Dbl.div
  simp [Dbl.isZero, Dbl.isNeg, Dbl.val, h]

theorem dbl_round_zero : Dbl.round false 0 = Dbl.fin 0 := by
  unfold Dbl.round
  rw [roundQ_zero]
  simp [Dbl.zero]

/-- Evaluation of a rounded result of the normal range: `e` is the binary exponent of
the exact result `q` and `n` the integer to which `q / 2^(e - 52)` rounds. -/
theorem dbl_round_eval (negZ : Bool) (q r : ℚ) (e n : ℤ)
    (h1 : (2 : ℚ) ^ e ≤ |q|) (h2 : |q| < (2 : ℚ) ^ (e + 1)) (he : -1022 ≤ e) (he2 : e ≤ 1022)
    (hn : roundHalfEven (q / (2 : ℚ) ^ (e - 52)) = n)
    (hnear : |q / (2 : ℚ) ^ (e - 52) - (n : ℚ)| ≤ 1 / 2)
    (hr : r = (n : ℚ) * (2 : ℚ) ^ (e - 52)) :
    Dbl.round negZ q = Dbl.fin r := by
  have hrq : roundQ q = r := by rw [hr]; exact roundQ_eval q e n h1 h2 he hn
  have hE := two_zpow_pos (e - 52)
  have h2' : (2 : ℚ) ≠ 0 := by norm_num
  have hx1 : (2 : ℚ) ^ (52 : ℤ) ≤ |q / (2 : ℚ) ^ (e - 52)| := by
    rw [abs_div, abs_of_pos hE, le_div_iff₀ hE, ← zpow_add₀ h2']
    have : (52 : ℤ) + (e - 52) = e := by ring
    rw [this]; exact h1
  have hx2 : |q / (2 : ℚ) ^ (e - 52)| < (2 : ℚ) ^ (53 : ℤ) := by
    rw [abs_div, abs_of_pos hE, div_lt_iff₀ hE, ← zpow_add₀ h2']
    have : (53 : ℤ) + (e - 52) = e + 1 := by ring
    rw [this]; exact h2
  have hnabs : |(n : ℚ)| ≤ |q / (2 : ℚ) ^ (e - 52)| + 1 / 2 := by
    have := abs_sub_abs_le_abs_sub (n : ℚ) (q / (2 : ℚ) ^ (e - 52))
    rw [abs_sub_comm] at this
    linarith
  have hnabs2 : |q / (2 : ℚ) ^ (e - 52)| - 1 / 2 ≤ |(n : ℚ)| := by
    have := abs_sub_abs_le_abs_sub (q / (2 : ℚ) ^ (e - 52)) (n : ℚ)
    linarith
  have hrabs : |r| = |(n : ℚ)| * (2 : ℚ) ^ (e - 52) := by
    rw [hr, abs_mul, abs_of_pos hE]
  have hr0 : r ≠ 0 := by
    have hnpos : 0 < |(n : ℚ)| := by
      have : (1 : ℚ) ≤ (2 : ℚ) ^ (52 : ℤ) := by norm_num
      linarith
    have : 0 < |r| := by rw [hrabs]; exact mul_pos hnpos hE
    exact abs_pos.mp this
  have hsmall : |r| < (2 : ℚ) ^ (1024 : ℕ) := by
    have hn54 : |(n : ℚ)| < (2 : ℚ) ^ (54 : ℤ) := by
      have : (2 : ℚ) ^ (53 : ℤ) + 1 / 2 < (2 : ℚ) ^ (54 : ℤ) := by norm_num
      linarith
    have h3 : |r| < (2 : ℚ) ^ (54 : ℤ) * (2 : ℚ) ^ (e - 52) := by
      rw [hrabs]; exact mul_lt_mul_of_pos_right hn54 hE
    rw [← zpow_add₀ h2'] at h3
    have h4 : (2 : ℚ) ^ ((54 : ℤ) + (e - 52)) ≤ (2 : ℚ) ^ (1024 : ℤ) :=
      zpow_le_zpow_right₀ (by norm_num) (by omega)
    have h5 : (2 : ℚ) ^ (1024 : ℤ) = (2 : ℚ) ^ (1024 : ℕ) := by
      rw [← zpow_natCast]; rfl
    linarith
  unfold Dbl.round
  rw [hrq, if_neg (not_le.mpr hsmall), if_neg hr0]

/-- A rounded result stays between `0` and a representable bound. -/
theorem dbl_round_nonneg_range (q : ℚ) (N k : ℤ) (hN : |N| ≤ 2 ^ 53) (hk : -1074 ≤ k)
    (hk2 : k ≤ 970) (h0 : 0 ≤ q) (h1 : q ≤ (N : ℚ) * (2 : ℚ) ^ k) :
    ∃ r : ℚ, Dbl.round false q = Dbl.fin r ∧ 0 ≤ r ∧ r ≤ (N : ℚ) * (2 : ℚ) ^ k := by
  have hlo : (0 : ℚ) ≤ roundQ q := by
    have := le_roundQ q 0 0 (by norm_num) (by norm_num) (by simpa using h0)
    simpa using this
  have hhi := roundQ_le q N k hN hk h1
  have hBlt : (N : ℚ) * (2 : ℚ) ^ k < (2 : ℚ) ^ (1024 : ℕ) := by
    have hNq : (N : ℚ) ≤ (2 : ℚ) ^ (53 : ℤ) := by
      have h' : N ≤ 2 ^ 53 := le_trans (le_abs_self N) hN
      have : ((N : ℤ) : ℚ) ≤ ((2 ^ 53 : ℤ) : ℚ) := by exact_mod_cast h'
      norm_num at this ⊢
      exact this
    have hk' : (2 : ℚ) ^ k ≤ (2 : ℚ) ^ (970 : ℤ) := zpow_le_zpow_right₀ (by norm_num) hk2
    have h3 : (N : ℚ) * (2 : ℚ) ^ k ≤ (2 : ℚ) ^ (53 : ℤ) * (2 : ℚ) ^ (970 : ℤ) :=
      mul_le_mul hNq hk' (le_of_lt (two_zpow_pos k)) (by positivity)
    have h4 : (2 : ℚ) ^ (53 : ℤ) * (2 : ℚ) ^ (970 : ℤ) < (2 : ℚ) ^ (1024 : ℕ) := by
      rw [← zpow_add₀ (by norm_num : (2 : ℚ) ≠ 0), ← zpow_natCast]
      exact zpow_lt_zpow_right₀ (by norm_num) (by norm_num)
    linarith
  have hnot : ¬ ((2 : ℚ) ^ (1024 : ℕ) ≤ |roundQ q|) := by
    rw [abs_of_nonneg hlo]; linarith
  unfold Dbl.round
  rw [if_neg hnot]
  by_cases hz : roundQ q = 0
  · rw [if_pos hz]
    refine ⟨0, ?_, le_rfl, by rw [← hz]; exact hhi⟩
    have : decide (q < 0) = false := by simpa using h0
    simp [Dbl.zero, this]
  · rw [if_neg hz]
    exact ⟨roundQ q, rfl, hlo, hhi⟩

/-- A rounded result stays between two negative representable bounds. -/
theorem dbl_round_neg_range (negZ : Bool) (q : ℚ) (Nl kl Nh kh : ℤ)
    (hNl : |Nl| ≤ 2 ^ 53) (hkl : -1074 ≤ kl) (hkl2 : kl ≤ 970)
    (hNh : |Nh| ≤ 2 ^ 53) (hkh : -1074 ≤ kh)
    (hneg : (Nh : ℚ) * (2 : ℚ) ^ kh < 0)
    (h0 : (Nl : ℚ) * (2 : ℚ) ^ kl ≤ q) (h1 : q ≤ (Nh : ℚ) * (2 : ℚ) ^ kh) :
    ∃ r : ℚ, Dbl.round negZ q = Dbl.fin r ∧ (Nl : ℚ) * (2 : ℚ) ^ kl ≤ r ∧
      r ≤ (Nh : ℚ) * (2 : ℚ) ^ kh := by
  have hlo := le_roundQ q Nl kl hNl hkl h0
  have hhi := roundQ_le q Nh kh hNh hkh h1
  have hBgt : -(2 : ℚ) ^ (1024 : ℕ) < (Nl : ℚ) * (2 : ℚ) ^ kl := by
    have hNq : -(2 : ℚ) ^ (53 : ℤ) ≤ (Nl : ℚ) := by
      have h' : -(2 ^ 53) ≤ Nl := (abs_le.mp hNl).1
      have : ((-(2 ^ 53) : ℤ) : ℚ) ≤ ((Nl : ℤ) : ℚ) := by exact_mod_cast h'
      norm_num at this ⊢
      exact this
    have hk' : (2 : ℚ) ^ kl ≤ (2 : ℚ) ^ (970 : ℤ) := zpow_le_zpow_right₀ (by norm_num) hkl2
    have hpk := two_zpow_pos kl
    have h3 : -((2 : ℚ) ^ (53 : ℤ) * (2 : ℚ) ^ (970 : ℤ)) ≤ (Nl : ℚ) * (2 : ℚ) ^ kl := by
      have a : -(2 : ℚ) ^ (53 : ℤ) * (2 : ℚ) ^ kl ≤ (Nl : ℚ) * (2 : ℚ) ^ kl :=
        mul_le_mul_of_nonneg_right hNq (le_of_lt hpk)
      have b : (2 : ℚ) ^ (53 : ℤ) * (2 : ℚ) ^ kl ≤ (2 : ℚ) ^ (53 : ℤ) * (2 : ℚ) ^ (970 : ℤ) :=
        mul_le_mul_of_nonneg_left hk' (by positivity)
      linarith
    have h4 : (2 : ℚ) ^ (53 : ℤ) * (2 : ℚ) ^ (970 : ℤ) < (2 : ℚ) ^ (1024 : ℕ) := by
      rw [← zpow_add₀ (by norm_num : (2 : ℚ) ≠ 0), ← zpow_natCast]
      exact zpow_lt_zpow_right₀ (by norm_num) (by norm_num)
    linarith
  have hrneg : roundQ q < 0 := lt_of_le_of_lt hhi hneg
  have hnot : ¬ ((2 : ℚ) ^ (1024 : ℕ) ≤ |roundQ q|) := by
    rw [abs_of_neg hrneg]; linarith
  unfold Dbl.round
  rw [if_neg hnot, if_neg (ne_of_lt hrneg)]
  exact ⟨roundQ q, rfl, hlo, hhi⟩

/-! ## Evaluations at concrete binary64 values -/

theorem dbl_lit_255 : Dbl.lit 255 = Dbl.fin 255 := by
  unfold Dbl.lit
  exact dbl_round_eval _ _ _ 7 8972014882652160 (by norm_num [le_abs]) (by norm_num [abs_lt]) (by norm_num) (by norm_num)
    (roundHalfEven_near _ _ (by norm_num [abs_lt])) (by norm_num [abs_le]) (by norm_num)

theorem dbl_lit_one : Dbl.lit 1 = Dbl.fin 1 := by
  unfold Dbl.lit
  exact dbl_round_eval _ _ _ 0 4503599627370496 (by norm_num [le_abs]) (by norm_num [abs_lt]) (by norm_num) (by norm_num)
    (roundHalfEven_near _ _ (by norm_num [abs_lt])) (by norm_num [abs_le]) (by norm_num)

theorem dbl_lit_200 : Dbl.lit 200 = Dbl.fin 200 := by
  unfold Dbl.lit
  exact dbl_round_eval _ _ _ 7 7036874417766400 (by norm_num [le_abs]) (by norm_num [abs_lt]) (by norm_num) (by norm_num)
    (roundHalfEven_near _ _ (by norm_num [abs_lt])) (by norm_num [abs_le]) (by norm_num)

theorem dbl_lit_half : Dbl.lit 0.5 = Dbl.fin (1 / 2) := by
  unfold Dbl.lit
  exact dbl_round_eval _ _ _ (-1) 4503599627370496 (by norm_num [le_abs]) (by norm_num [abs_lt]) (by norm_num) (by norm_num)
    (roundHalfEven_near _ _ (by norm_num [abs_lt])) (by norm_num [abs_le]) (by norm_num)

theorem dbl_lit_zero : Dbl.lit 0 = Dbl.fin 0 := by
  unfold Dbl.lit
  exact dbl_round_zero

theorem scn_w : Dbl.fin 800 * Dbl.fin 1 = Dbl.fin 800 := by
  rw [dbl_mul_fin]
  exact dbl_round_eval _ _ _ 9 7036874417766400 (by norm_num [le_abs]) (by norm_num [abs_lt]) (by norm_num) (by norm_num)
    (roundHalfEven_near _ _ (by norm_num [abs_lt])) (by norm_num [abs_le]) (by norm_num)

theorem scn_h : Dbl.fin 600 * Dbl.fin 1 = Dbl.fin 600 := by
  rw [dbl_mul_fin]
  exact dbl_round_eval _ _ _ 9 5277655813324800 (by norm_num [le_abs]) (by norm_num [abs_lt]) (by norm_num) (by norm_num)
    (roundHalfEven_near _ _ (by norm_num [abs_lt])) (by norm_num [abs_le]) (by norm_num)

theorem scn_halfw : Dbl.fin 800 / Dbl.fin 2 = Dbl.fin 400 := by
  rw [dbl_div_fin _ _ (by norm_num)]
  exact dbl_round_eval _ _ _ 8 7036874417766400 (by norm_num [le_abs]) (by norm_num [abs_lt]) (by norm_num) (by norm_num)
    (roundHalfEven_near _ _ (by norm_num [abs_lt])) (by norm_num [abs_le]) (by norm_num)

theorem scn_halfh : Dbl.fin 600 / Dbl.fin 2 = Dbl.fin 300 := by
  rw [dbl_div_fin _ _ (by norm_num)]
  exact dbl_round_eval _ _ _ 8 5277655813324800 (by norm_num [le_abs]) (by norm_num [abs_lt]) (by norm_num) (by norm_num)
    (roundHalfEven_near _ _ (by norm_num [abs_lt])) (by norm_num [abs_le]) (by norm_num)

theorem scn_dx : Dbl.fin 400 - Dbl.fin 400 = Dbl.fin 0 := by
  rw [dbl_sub_fin _ _ (by norm_num)]
  have h : (400 - 400 : ℚ) = 0 := by norm_num
  rw [h]
  simpa using dbl_round_zero

theorem scn_dy : Dbl.fin 300 - Dbl.fin 300 = Dbl.fin 0 := by
  rw [dbl_sub_fin _ _ (by norm_num)]
  have h : (300 - 300 : ℚ) = 0 := by norm_num
  rw [h]
  simpa using dbl_round_zero

theorem scn_zs : Dbl.fin 200 * Dbl.fin 1 = Dbl.fin 200 := by
  rw [dbl_mul_fin]
  exact dbl_round_eval _ _ _ 7 7036874417766400 (by norm_num [le_abs]) (by norm_num [abs_lt]) (by norm_num) (by norm_num)
    (roundHalfEven_near _ _ (by norm_num [abs_lt])) (by norm_num [abs_le]) (by norm_num)

theorem scn_q0 : Dbl.fin 0 / Dbl.fin 200 = Dbl.fin 0 := by
  rw [dbl_div_fin _ _ (by norm_num)]
  have h : (0 / 200 : ℚ) = 0 := by norm_num
  rw [h]
  simpa using dbl_round_zero

theorem scn_zx : Dbl.fin 0 + Dbl.fin (-1 / 2) = Dbl.fin (-1 / 2) := by
  rw [dbl_add_fin]
  exact dbl_round_eval _ _ _ (-1) (-4503599627370496) (by norm_num [le_abs]) (by norm_num [abs_lt]) (by norm_num) (by norm_num)
    (roundHalfEven_near _ _ (by norm_num [abs_lt])) (by norm_num [abs_le]) (by norm_num)

theorem scn_zy : Dbl.fin 0 + Dbl.fin 0 = Dbl.fin 0 := by
  rw [dbl_add_fin]
  have h : (0 + 0 : ℚ) = 0 := by norm_num
  rw [h]
  simpa using dbl_round_zero

theorem dbl_lit_four : Dbl.lit 4 = Dbl.fin 4 := by
  unfold Dbl.lit
  exact dbl_round_eval _ _ _ 2 4503599627370496 (by norm_num [le_abs]) (by norm_num [abs_lt]) (by norm_num) (by norm_num)
    (roundHalfEven_near _ _ (by norm_num [abs_lt])) (by norm_num [abs_le]) (by norm_num)

theorem dbl_lit_two : Dbl.lit 2 = Dbl.fin 2 := by
  unfold Dbl.lit
  exact dbl_round_eval _ _ _ 1 4503599627370496 (by norm_num [le_abs]) (by norm_num [abs_lt]) (by norm_num) (by norm_num)
    (roundHalfEven_near _ _ (by norm_num [abs_lt])) (by norm_num [abs_le]) (by norm_num)

theorem esc_aa0 : Dbl.fin 2 * Dbl.fin 2 = Dbl.fin 4 := by
  rw [dbl_mul_fin]
  exact dbl_round_eval _ _ _ 2 4503599627370496 (by norm_num [le_abs]) (by norm_num [abs_lt]) (by norm_num) (by norm_num)
    (roundHalfEven_near _ _ (by norm_num [abs_lt])) (by norm_num [abs_le]) (by norm_num)

theorem esc_bb0 : Dbl.fin (1 / 1073741824) * Dbl.fin (1 / 1073741824) = Dbl.fin (1 / 1152921504606846976) := by
  rw [dbl_mul_fin]
  exact dbl_round_eval _ _ _ (-60) 4503599627370496 (by norm_num [le_abs]) (by norm_num [abs_lt]) (by norm_num) (by norm_num)
    (roundHalfEven_near _ _ (by norm_num [abs_lt])) (by norm_num [abs_le]) (by norm_num)

theorem esc_sum0 : Dbl.fin 4 + Dbl.fin (1 / 1152921504606846976) = Dbl.fin 4 := by
  rw [dbl_add_fin]
  exact dbl_round_eval _ _ _ 2 4503599627370496 (by norm_num [le_abs]) (by norm_num [abs_lt]) (by norm_num) (by norm_num)
    (roundHalfEven_near _ _ (by norm_num [abs_lt])) (by norm_num [abs_le]) (by norm_num)

theorem esc_diff0 : Dbl.fin 4 - Dbl.fin (1 / 1152921504606846976) = Dbl.fin 4 := by
  rw [dbl_sub_fin _ _ (by norm_num)]
  exact dbl_round_eval _ _ _ 1 9007199254740992 (by norm_num [le_abs]) (by norm_num [abs_lt]) (by norm_num) (by norm_num)
    (roundHalfEven_near _ _ (by norm_num [abs_lt])) (by norm_num [abs_le]) (by norm_num)

theorem esc_a1 : Dbl.fin 4 + Dbl.fin 2 = Dbl.fin 6 := by
  rw [dbl_add_fin]
  exact dbl_round_eval _ _ _ 2 6755399441055744 (by norm_num [le_abs]) (by norm_num [abs_lt]) (by norm_num) (by norm_num)
    (roundHalfEven_near _ _ (by norm_num [abs_lt])) (by norm_num [abs_le]) (by norm_num)

theorem esc_2ab0 : Dbl.fin 4 * Dbl.fin (1 / 1073741824) = Dbl.fin (1 / 268435456) := by
  rw [dbl_mul_fin]
  exact dbl_round_eval _ _ _ (-28) 4503599627370496 (by norm_num [le_abs]) (by norm_num [abs_lt]) (by norm_num) (by norm_num)
    (roundHalfEven_near _ _ (by norm_num [abs_lt])) (by norm_num [abs_le]) (by norm_num)

theorem esc_b1 : Dbl.fin (1 / 268435456) + Dbl.fin (1 / 1073741824) = Dbl.fin (5 / 1073741824) := by
  rw [dbl_add_fin]
  exact dbl_round_eval _ _ _ (-28) 5629499534213120 (by norm_num [le_abs]) (by norm_num [abs_lt]) (by norm_num) (by norm_num)
    (roundHalfEven_near _ _ (by norm_num [abs_lt])) (by norm_num [abs_le]) (by norm_num)

theorem esc_aa1 : Dbl.fin 6 * Dbl.fin 6 = Dbl.fin 36 := by
  rw [dbl_mul_fin]
  exact dbl_round_eval _ _ _ 5 5066549580791808 (by norm_num [le_abs]) (by norm_num [abs_lt]) (by norm_num) (by norm_num)
    (roundHalfEven_near _ _ (by norm_num [abs_lt])) (by norm_num [abs_le]) (by norm_num)

theorem esc_bb1 : Dbl.fin (5 / 1073741824) * Dbl.fin (5 / 1073741824) = Dbl.fin (25 / 1152921504606846976) := by
  rw [dbl_mul_fin]
  exact dbl_round_eval _ _ _ (-56) 7036874417766400 (by norm_num [le_abs]) (by norm_num [abs_lt]) (by norm_num) (by norm_num)
    (roundHalfEven_near _ _ (by norm_num [abs_lt])) (by norm_num [abs_le]) (by norm_num)

theorem esc_sum1 : Dbl.fin 36 + Dbl.fin (25 / 1152921504606846976) = Dbl.fin 36 := by
  rw [dbl_add_fin]
  exact dbl_round_eval _ _ _ 5 5066549580791808 (by norm_num [le_abs]) (by norm_num [abs_lt]) (by norm_num) (by norm_num)
    (roundHalfEven_near _ _ (by norm_num [abs_lt])) (by norm_num [abs_le]) (by norm_num)

theorem dbl_lit_09 : Dbl.lit 0.9 = Dbl.fin (8106479329266893 / 9007199254740992) := by
  unfold Dbl.lit
  exact dbl_round_eval _ _ _ (-1) 8106479329266893 (by norm_num [le_abs]) (by norm_num [abs_lt]) (by norm_num) (by norm_num)
    (roundHalfEven_near _ _ (by norm_num [abs_lt])) (by norm_num [abs_le]) (by norm_num)

theorem dbl_lit_11 : Dbl.lit 1.1 = Dbl.fin (2476979795053773 / 2251799813685248) := by
  unfold Dbl.lit
  exact dbl_round_eval _ _ _ 0 4953959590107546 (by norm_num [le_abs]) (by norm_num [abs_lt]) (by norm_num) (by norm_num)
    (roundHalfEven_near _ _ (by norm_num [abs_lt])) (by norm_num [abs_le]) (by norm_num)

theorem ras_801 : Dbl.fin 801 * Dbl.fin (1 / 2) = Dbl.fin (801 / 2) := by
  rw [dbl_mul_fin]
  exact dbl_round_eval _ _ _ 8 7045670510788608 (by norm_num [le_abs]) (by norm_num [abs_lt]) (by norm_num) (by norm_num)
    (roundHalfEven_near _ _ (by norm_num [abs_lt])) (by norm_num [abs_le]) (by norm_num)

theorem ras_601 : Dbl.fin 601 * Dbl.fin (1 / 2) = Dbl.fin (601 / 2) := by
  rw [dbl_mul_fin]
  exact dbl_round_eval _ _ _ 8 5286451906347008 (by norm_num [le_abs]) (by norm_num [abs_lt]) (by norm_num) (by norm_num)
    (roundHalfEven_near _ _ (by norm_num [abs_lt])) (by norm_num [abs_le]) (by norm_num)

theorem ras_800 : Dbl.fin 800 * Dbl.fin (1 / 2) = Dbl.fin 400 := by
  rw [dbl_mul_fin]
  exact dbl_round_eval _ _ _ 8 7036874417766400 (by norm_num [le_abs]) (by norm_num [abs_lt]) (by norm_num) (by norm_num)
    (roundHalfEven_near _ _ (by norm_num [abs_lt])) (by norm_num [abs_le]) (by norm_num)

theorem ras_600 : Dbl.fin 600 * Dbl.fin (1 / 2) = Dbl.fin 300 := by
  rw [dbl_mul_fin]
  exact dbl_round_eval _ _ _ 8 5277655813324800 (by norm_num [le_abs]) (by norm_num [abs_lt]) (by norm_num) (by norm_num)
    (roundHalfEven_near _ _ (by norm_num [abs_lt])) (by norm_num [abs_le]) (by norm_num)

theorem whl_dx : Dbl.fin 100 - Dbl.fin 400 = Dbl.fin (-300) := by
  rw [dbl_sub_fin _ _ (by norm_num)]
  exact dbl_round_eval _ _ _ 8 (-5277655813324800) (by norm_num [le_abs]) (by norm_num [abs_lt]) (by norm_num) (by norm_num)
    (roundHalfEven_near _ _ (by norm_num [abs_lt])) (by norm_num [abs_le]) (by norm_num)

theorem whl_xb1 : Dbl.fin (-300) / Dbl.fin 200 = Dbl.fin (-3 / 2) := by
  rw [dbl_div_fin _ _ (by norm_num)]
  exact dbl_round_eval _ _ _ 0 (-6755399441055744) (by norm_num [le_abs]) (by norm_num [abs_lt]) (by norm_num) (by norm_num)
    (roundHalfEven_near _ _ (by norm_num [abs_lt])) (by norm_num [abs_le]) (by norm_num)

theorem whl_xB : Dbl.fin (-3 / 2) + Dbl.fin (-1 / 2) = Dbl.fin (-2) := by
  rw [dbl_add_fin]
  exact dbl_round_eval _ _ _ 1 (-4503599627370496) (by norm_num [le_abs]) (by norm_num [abs_lt]) (by norm_num) (by norm_num)
    (roundHalfEven_near _ _ (by norm_num [abs_lt])) (by norm_num [abs_le]) (by norm_num)

theorem whl_nz : Dbl.fin 200 * Dbl.fin (8106479329266893 / 9007199254740992) = Dbl.fin 180 := by
  rw [dbl_mul_fin]
  exact dbl_round_eval _ _ _ 7 6333186975989760 (by norm_num [le_abs]) (by norm_num [abs_lt]) (by norm_num) (by norm_num)
    (roundHalfEven_near _ _ (by norm_num [abs_lt])) (by norm_num [abs_le]) (by norm_num)

theorem whl_xa1 : Dbl.fin (-300) / Dbl.fin 180 = Dbl.fin (-7505999378950827 / 4503599627370496) := by
  rw [dbl_div_fin _ _ (by norm_num)]
  exact dbl_round_eval _ _ _ 0 (-7505999378950827) (by norm_num [le_abs]) (by norm_num [abs_lt]) (by norm_num) (by norm_num)
    (roundHalfEven_near _ _ (by norm_num [abs_lt])) (by norm_num [abs_le]) (by norm_num)

theorem whl_xA : Dbl.fin (-7505999378950827 / 4503599627370496) + Dbl.fin (-1 / 2) = Dbl.fin (-2439449798159019 / 1125899906842624) := by
  rw [dbl_add_fin]
  exact dbl_round_eval _ _ _ 1 (-4878899596318038) (by norm_num [le_abs]) (by norm_num [abs_lt]) (by norm_num) (by norm_num)
    (roundHalfEven_tie _ _ (by norm_num) (by norm_num [abs_eq])) (by norm_num [abs_le]) (by norm_num)

theorem whl_df : Dbl.fin (-2) - Dbl.fin (-2439449798159019 / 1125899906842624) = Dbl.fin (187649984473771 / 1125899906842624) := by
  rw [dbl_sub_fin _ _ (by norm_num)]
  exact dbl_round_eval _ _ _ (-3) 6004799503160672 (by norm_num [le_abs]) (by norm_num [abs_lt]) (by norm_num) (by norm_num)
    (roundHalfEven_near _ _ (by norm_num [abs_lt])) (by norm_num [abs_le]) (by norm_num)

theorem whl_nx : Dbl.fin (-1 / 2) + Dbl.fin (187649984473771 / 1125899906842624) = Dbl.fin (-375299968947541 / 1125899906842624) := by
  rw [dbl_add_fin]
  exact dbl_round_eval _ _ _ (-2) (-6004799503160656) (by norm_num [le_abs]) (by norm_num [abs_lt]) (by norm_num) (by norm_num)
    (roundHalfEven_near _ _ (by norm_num [abs_lt])) (by norm_num [abs_le]) (by norm_num)

theorem whl_m1 : Dbl.fin 100 * Dbl.fin 400 = Dbl.fin 40000 := by
  rw [dbl_mul_fin]
  exact dbl_round_eval _ _ _ 15 5497558138880000 (by norm_num [le_abs]) (by norm_num [abs_lt]) (by norm_num) (by norm_num)
    (roundHalfEven_near _ _ (by norm_num [abs_lt])) (by norm_num [abs_le]) (by norm_num)

theorem whl_rx : Dbl.fin 40000 / Dbl.fin 800 = Dbl.fin 50 := by
  rw [dbl_div_fin _ _ (by norm_num)]
  exact dbl_round_eval _ _ _ 5 7036874417766400 (by norm_num [le_abs]) (by norm_num [abs_lt]) (by norm_num) (by norm_num)
    (roundHalfEven_near _ _ (by norm_num [abs_lt])) (by norm_num [abs_le]) (by norm_num)

theorem whl_h2 : Dbl.fin 400 / Dbl.fin 2 = Dbl.fin 200 := by
  rw [dbl_div_fin _ _ (by norm_num)]
  exact dbl_round_eval _ _ _ 7 7036874417766400 (by norm_num [le_abs]) (by norm_num [abs_lt]) (by norm_num) (by norm_num)
    (roundHalfEven_near _ _ (by norm_num [abs_lt])) (by norm_num [abs_le]) (by norm_num)

theorem whl_sx : Dbl.fin 50 - Dbl.fin 200 = Dbl.fin (-150) := by
  rw [dbl_sub_fin _ _ (by norm_num)]
  exact dbl_round_eval _ _ _ 7 (-5277655813324800) (by norm_num [le_abs]) (by norm_num [abs_lt]) (by norm_num) (by norm_num)
    (roundHalfEven_near _ _ (by norm_num [abs_lt])) (by norm_num [abs_le]) (by norm_num)

theorem whl_zs0 : Dbl.fin 200 * Dbl.fin (1 / 2) = Dbl.fin 100 := by
  rw [dbl_mul_fin]
  exact dbl_round_eval _ _ _ 6 7036874417766400 (by norm_num [le_abs]) (by norm_num [abs_lt]) (by norm_num) (by norm_num)
    (roundHalfEven_near _ _ (by norm_num [abs_lt])) (by norm_num [abs_le]) (by norm_num)

theorem whl_b1 : Dbl.fin (-150) / Dbl.fin 100 = Dbl.fin (-3 / 2) := by
  rw [dbl_div_fin _ _ (by norm_num)]
  exact dbl_round_eval _ _ _ 0 (-6755399441055744) (by norm_num [le_abs]) (by norm_num [abs_lt]) (by norm_num) (by norm_num)
    (roundHalfEven_near _ _ (by norm_num [abs_lt])) (by norm_num [abs_le]) (by norm_num)

theorem whl_zs1 : Dbl.fin 180 * Dbl.fin (1 / 2) = Dbl.fin 90 := by
  rw [dbl_mul_fin]
  exact dbl_round_eval _ _ _ 6 6333186975989760 (by norm_num [le_abs]) (by norm_num [abs_lt]) (by norm_num) (by norm_num)
    (roundHalfEven_near _ _ (by norm_num [abs_lt])) (by norm_num [abs_le]) (by norm_num)

theorem whl_a1 : Dbl.fin (-150) / Dbl.fin 90 = Dbl.fin (-7505999378950827 / 4503599627370496) := by
  rw [dbl_div_fin _ _ (by norm_num)]
  exact dbl_round_eval _ _ _ 0 (-7505999378950827) (by norm_num [le_abs]) (by norm_num [abs_lt]) (by norm_num) (by norm_num)
    (roundHalfEven_near _ _ (by norm_num [abs_lt])) (by norm_num [abs_le]) (by norm_num)

theorem whl_after : Dbl.fin (-7505999378950827 / 4503599627370496) + Dbl.fin (-375299968947541 / 1125899906842624) = Dbl.fin (-9007199254740991 / 4503599627370496) := by
  rw [dbl_add_fin]
  exact dbl_round_eval _ _ _ 0 (-9007199254740991) (by norm_num [le_abs]) (by norm_num [abs_lt]) (by norm_num) (by norm_num)
    (roundHalfEven_near _ _ (by norm_num [abs_lt])) (by norm_num [abs_le]) (by norm_num)

/-! ## Escape-time loop in binary64 -/

theorem f64_iterate_two : F64.iterate (Dbl.fin 2) (Dbl.fin (1 / 1073741824)) 100 = 1 := by
  have hle0 : Dbl.le (Dbl.fin 4) (Dbl.fin 4) = true := by simp [Dbl.le, Dbl.val]
  have hle1 : Dbl.le (Dbl.fin 36) (Dbl.fin 4) = false := by
    simp [Dbl.le, Dbl.val]; norm_num
  unfold F64.iterate
  rw [F64.escapeLoop]
  simp only [esc_aa0, esc_bb0, esc_sum0, dbl_lit_four, dbl_lit_two, hle0, esc_diff0, esc_a1,
    esc_2ab0, esc_b1]
  rw [if_pos ⟨trivial, by norm_num⟩]
  rw [F64.escapeLoop]
  simp only [esc_aa1, esc_bb1, esc_sum1, dbl_lit_four, hle1]
  simp

/-- Invariant of the binary64 loop: started at `(zₖ, k)` with no escape before `k`, it
exits with a counter `r ≤ maxIter` such that no `zⱼ` with `j < r` has escaped and,
when `r < maxIter`, `z_r` has. -/
theorem f64_escapeLoop_spec (zx zy : Dbl) (maxIter : ℕ) :
    ∀ (d i : ℕ) (a b : Dbl), maxIter - i = d → i ≤ maxIter →
      F64.orbit (zx, zy) i = (a, b) →
      (∀ k, k < i → F64.escaped (F64.orbit (zx, zy) k) = false) →
      F64.escapeLoop zx zy maxIter a b i ≤ maxIter ∧
      (∀ k, k < F64.escapeLoop zx zy maxIter a b i →
        F64.escaped (F64.orbit (zx, zy) k) = false) ∧
      (F64.escapeLoop zx zy maxIter a b i < maxIter →
        F64.escaped (F64.orbit (zx, zy) (F64.escapeLoop zx zy maxIter a b i)) = true) := by
  intro d
  induction d with
  | zero =>
    intro i a b hd hi ho hk
    have hnot : ¬ (Dbl.le (a * a + b * b) (Dbl.lit 4) = true ∧ i < maxIter) := by
      intro h; omega
    rw [F64.escapeLoop, if_neg hnot]
    exact ⟨hi, hk, fun h => by omega⟩
  | succ d ih =>
    intro i a b hd hi ho hk
    rw [F64.escapeLoop]
    by_cases hc : Dbl.le (a * a + b * b) (Dbl.lit 4) = true ∧ i < maxIter
    · rw [if_pos hc]
      have hnext : F64.orbit (zx, zy) (i + 1)
          = (a * a - b * b + zx, Dbl.lit 2 * a * b + zy) := by
        show F64.orbitStep (zx, zy) (F64.orbit (zx, zy) i) = _
        rw [ho]
        rfl
      apply ih (i + 1) _ _ (by omega) (by omega) hnext
      intro k hki
      by_cases hlt : k < i
      · exact hk k hlt
      · have hke : k = i := by omega
        rw [hke, ho]
        simp [F64.escaped, hc.1]
    · rw [if_neg hc]
      refine ⟨hi, hk, ?_⟩
      intro hlt
      rw [ho]
      have hfalse : ¬ (Dbl.le (a * a + b * b) (Dbl.lit 4) = true) := fun h => hc ⟨h, hlt⟩
      simpa [F64.escaped] using hfalse

theorem f64_iterate_spec (zx zy : Dbl) (maxIter : ℕ) :
    F64.iterate zx zy maxIter ≤ maxIter ∧
    (∀ k, k < F64.iterate zx zy maxIter → F64.escaped (F64.orbit (zx, zy) k) = false) ∧
    (F64.iterate zx zy maxIter < maxIter →
      F64.escaped (F64.orbit (zx, zy) (F64.iterate zx zy maxIter)) = true) :=
  f64_escapeLoop_spec zx zy maxIter maxIter 0 zx zy (by omega) (Nat.zero_le _) rfl
    (fun k hk => absurd hk (Nat.not_lt_zero k))

/-- C2, as stated, fails: at the point `c = (2, 2^-30)` with budget 100 the exact
orbit has `|z₀|² = 4 + 2^-60 > 4`, so the reference escape count is 0, while the loop,
whose test rounds `a*a + b*b` to `4`, runs once and returns 1. -/
theorem escape_count_differs_from_reference :
    4 < normSq (orbit (2, 1 / 1073741824) 0) ∧
    escapeRef (2, 1 / 1073741824) 100 = 0 ∧
    F64.iterate (Dbl.fin 2) (Dbl.fin (1 / 1073741824)) 100 = 1 := by
  have h0 : 4 < normSq (orbit (2, 1 / 1073741824) 0) := by
    show (4 : ℚ) < (2 : ℚ) ^ 2 + (1 / 1073741824 : ℚ) ^ 2
    norm_num
  refine ⟨h0, ?_, f64_iterate_two⟩
  have hex : ∃ k, k < 100 ∧ 4 < normSq (orbit (2, 1 / 1073741824) k) := ⟨0, by norm_num, h0⟩
  unfold escapeRef
  rw [dif_pos hex]
  exact (Nat.find_eq_zero hex).mpr ⟨by norm_num, h0⟩

/-- C2, amended: the escape-time loop equals the reference definition over the orbit
computed in the loop's binary64 arithmetic. For every point `c = (zx, zy)` and every
`maxIter`, with `z₀ = c` and `zₖ₊₁ = zₖ² + c` evaluated as
`(a*a - b*b + zx, 2*a*b + zy)`, each operation rounded, the loop (a total function:
it terminates) returns the least `k < maxIter` at which the rounded test
`a*a + b*b <= 4` fails for `zₖ` when such a `k` exists, and `maxIter` otherwise; in
particular `0 ≤ i ≤ maxIter`. -/
theorem f64_iterate_eq_escapeRef (zx zy : Dbl) (maxIter : ℕ) :
    F64.iterate zx zy maxIter = F64.escapeRef (zx, zy) maxIter ∧
    (∀ k, k < maxIter → F64.escaped (F64.orbit (zx, zy) k) = true →
      (∀ j, j < k → F64.escaped (F64.orbit (zx, zy) j) = false) →
      F64.iterate zx zy maxIter = k) ∧
    ((∀ k, k < maxIter → F64.escaped (F64.orbit (zx, zy) k) = false) →
      F64.iterate zx zy maxIter = maxIter) ∧
    0 ≤ F64.iterate zx zy maxIter ∧ F64.iterate zx zy maxIter ≤ maxIter := by
  obtain ⟨hle, hbefore, hesc⟩ := f64_iterate_spec zx zy maxIter
  have hleast : ∀ k, k < maxIter → F64.escaped (F64.orbit (zx, zy) k) = true →
      (∀ j, j < k → F64.escaped (F64.orbit (zx, zy) j) = false) →
      F64.iterate zx zy maxIter = k := by
    intro k hk hkesc hkleast
    rcases Nat.lt_trichotomy (F64.iterate zx zy maxIter) k with h | h | h
    · have h1 := hesc (by omega)
      rw [hkleast _ h] at h1
      exact absurd h1 (by decide)
    · exact h
    · have h1 := hbefore k h
      rw [hkesc] at h1
      exact absurd h1 (by decide)
  have hnone : (∀ k, k < maxIter → F64.escaped (F64.orbit (zx, zy) k) = false) →
      F64.iterate zx zy maxIter = maxIter := by
    intro hall
    by_contra hne
    have hlt : F64.iterate zx zy maxIter < maxIter := by omega
    have h1 := hesc hlt
    rw [hall _ hlt] at h1
    exact absurd h1 (by decide)
  refine ⟨?_, hleast, hnone, Nat.zero_le _, hle⟩
  unfold F64.escapeRef
  split
  · rename_i h
    obtain ⟨hfk, hfesc⟩ := Nat.find_spec h
    apply hleast _ hfk hfesc
    intro j hj
    have hmin := Nat.find_min h hj
    by_contra hcon
    exact hmin ⟨by omega, by simpa using hcon⟩
  · rename_i h
    apply hnone
    intro k hk
    by_contra hcon
    exact h ⟨k, hk, by simpa using hcon⟩

theorem f64_iterate_eq_escapeRef_witness :
    F64.iterate (Dbl.fin 2) (Dbl.fin (1 / 1073741824)) 100
      = F64.escapeRef (Dbl.fin 2, Dbl.fin (1 / 1073741824)) 100 ∧
    F64.iterate (Dbl.fin 2) (Dbl.fin (1 / 1073741824)) 100 = 1 :=
  ⟨(f64_iterate_eq_escapeRef (Dbl.fin 2) (Dbl.fin (1 / 1073741824)) 100).1, f64_iterate_two⟩

/-- The budget relation also holds of the binary64 loop: its sequence of states does
not depend on the budget. -/
theorem f64_iterate_budget (zx zy : Dbl) (n m : ℕ) (hnm : n ≤ m) :
    F64.iterate zx zy n = min n (F64.iterate zx zy m) := by
  obtain ⟨hn1, hn2, hn3⟩ := f64_iterate_spec zx zy n
  obtain ⟨hm1, hm2, hm3⟩ := f64_iterate_spec zx zy m
  by_cases hcase : F64.iterate zx zy m ≤ n
  · rw [min_eq_right hcase]
    rcases Nat.lt_trichotomy (F64.iterate zx zy n) (F64.iterate zx zy m) with h | h | h
    · have h1 := hn3 (by omega)
      rw [hm2 _ h] at h1
      exact absurd h1 (by decide)
    · exact h
    · have h1 := hm3 (by omega)
      rw [hn2 _ h] at h1
      exact absurd h1 (by decide)
  · have hlt : n < F64.iterate zx zy m := not_le.mp hcase
    rw [min_eq_left (le_of_lt hlt)]
    by_contra hne
    have hlt2 : F64.iterate zx zy n < n := by omega
    have h1 := hn3 hlt2
    rw [hm2 _ (by omega)] at h1
    exact absurd h1 (by decide)

/-! ## Colour bytes in binary64 -/

theorem toUint8Clamp_ofInt (n : ℤ) (h0 : 0 ≤ n) (h1 : n ≤ 255) :
    Dbl.toUint8Clamp (Dbl.ofInt n) = n := by
  show (if (n : ℚ) ≤ 0 then (0 : ℤ) else if (255 : ℚ) ≤ (n : ℚ) then 255
    else roundHalfEven (n : ℚ)) = n
  by_cases hz : (n : ℚ) ≤ 0
  · rw [if_pos hz]
    have : n ≤ 0 := by exact_mod_cast hz
    omega
  · rw [if_neg hz]
    by_cases hb : (255 : ℚ) ≤ (n : ℚ)
    · rw [if_pos hb]
      have : (255 : ℤ) ≤ n := by exact_mod_cast hb
      omega
    · rw [if_neg hb]
      exact roundHalfEven_intCast n

theorem dbl_decide_neg_false (q : ℚ) (h : 0 ≤ q) : decide (q < 0) = false := by
  simpa using h

/-- The value `Math.floor(255 * p)` for `p` in `[0, 1]` is an integer in `[0, 255]`. -/
theorem f64_floor255 (p : ℚ) (h0 : 0 ≤ p) (h1 : p ≤ 1) :
    ∃ n : ℤ, Dbl.floor (Dbl.lit 255 * Dbl.fin p) = Dbl.ofInt n ∧ 0 ≤ n ∧ n ≤ 255 := by
  rw [dbl_lit_255, dbl_mul_fin, dbl_decide_neg_false p h0]
  have hq0 : (0 : ℚ) ≤ 255 * p := by positivity
  have hq1 : 255 * p ≤ ((255 : ℤ) : ℚ) * (2 : ℚ) ^ (0 : ℤ) := by
    norm_num; linarith
  obtain ⟨r, hr, hr0, hr1⟩ := dbl_round_nonneg_range (255 * p) 255 0 (by norm_num)
    (by norm_num) (by norm_num) hq0 hq1
  have hdec : (xor (decide ((255 : ℚ) < 0)) false) = false := by
    have : decide ((255 : ℚ) < 0) = false := dbl_decide_neg_false 255 (by norm_num)
    rw [this]; rfl
  rw [hdec, hr]
  refine ⟨⌊r⌋, rfl, Int.floor_nonneg.mpr hr0, ?_⟩
  have hr255 : r ≤ ((255 : ℤ) : ℚ) := by
    have : ((255 : ℤ) : ℚ) * (2 : ℚ) ^ (0 : ℤ) = ((255 : ℤ) : ℚ) := by norm_num
    rw [← this]; exact hr1
  have := Int.floor_mono hr255
  simpa using this

/-- The escape fraction `i / maxIter` for `i ≤ maxIter`, `maxIter > 0`, is a finite
number in `[0, 1]`. -/
theorem f64_escapeFraction (i maxIter : ℕ) (hm : 0 < maxIter) (hi : i ≤ maxIter) :
    ∃ t : ℚ, Dbl.ofNat i / Dbl.ofNat maxIter = Dbl.fin t ∧ 0 ≤ t ∧ t ≤ 1 := by
  have hmq : (0 : ℚ) < (maxIter : ℚ) := by exact_mod_cast hm
  have hiq : (i : ℚ) ≤ (maxIter : ℚ) := by exact_mod_cast hi
  show ∃ t : ℚ, Dbl.fin (i : ℚ) / Dbl.fin (maxIter : ℚ) = Dbl.fin t ∧ 0 ≤ t ∧ t ≤ 1
  rw [dbl_div_fin _ _ (ne_of_gt hmq), dbl_decide_neg_false _ (Nat.cast_nonneg i),
    dbl_decide_neg_false _ (le_of_lt hmq)]
  have hq0 : (0 : ℚ) ≤ (i : ℚ) / (maxIter : ℚ) := by positivity
  have hq1 : (i : ℚ) / (maxIter : ℚ) ≤ ((1 : ℤ) : ℚ) * (2 : ℚ) ^ (0 : ℤ) := by
    norm_num
    rw [div_le_one hmq]; exact hiq
  obtain ⟨r, hr, hr0, hr1⟩ := dbl_round_nonneg_range _ 1 0 (by norm_num)
    (by norm_num) (by norm_num) hq0 hq1
  refine ⟨r, hr, hr0, ?_⟩
  have : ((1 : ℤ) : ℚ) * (2 : ℚ) ^ (0 : ℤ) = 1 := by norm_num
  rw [← this]; exact hr1

theorem f64_getHeatmapColor_bytes (pow : Dbl → Dbl → Dbl) (hpow : F64.PowInUnit pow)
    (t : ℚ) (h0 : 0 ≤ t) (h1 : t ≤ 1) :
    ∃ rb gb bb : ℤ, F64.getHeatmapColor pow (Dbl.fin t)
        = (Dbl.ofInt rb, Dbl.ofInt gb, Dbl.ofInt bb) ∧
      (0 ≤ rb ∧ rb ≤ 255) ∧ (0 ≤ gb ∧ gb ≤ 255) ∧ (0 ≤ bb ∧ bb ≤ 255) := by
  obtain ⟨p3, hp3, hp30, hp31⟩ := hpow t (Dbl.lit 3) h0 h1
  obtain ⟨p15, hp15, hp150, hp151⟩ := hpow t (Dbl.lit 1.5) h0 h1
  obtain ⟨rb, hrb, hrb0, hrb1⟩ := f64_floor255 p3 hp30 hp31
  obtain ⟨gb, hgb, hgb0, hgb1⟩ := f64_floor255 p15 hp150 hp151
  obtain ⟨bb, hbb, hbb0, hbb1⟩ := f64_floor255 t h0 h1
  refine ⟨rb, gb, bb, ?_, ⟨hrb0, hrb1⟩, ⟨hgb0, hgb1⟩, ⟨hbb0, hbb1⟩⟩
  unfold F64.getHeatmapColor
  simp only [hp3, hp15, hrb, hgb, hbb]

theorem f64_pixelColor_bytes (pow : Dbl → Dbl → Dbl) (hpow : F64.PowInUnit pow)
    (i maxIter : ℕ) (hi : i ≤ maxIter) :
    ∃ rb gb bb : ℤ, F64.pixelColor pow i maxIter
        = (Dbl.ofInt rb, Dbl.ofInt gb, Dbl.ofInt bb) ∧
      (0 ≤ rb ∧ rb ≤ 255) ∧ (0 ≤ gb ∧ gb ≤ 255) ∧ (0 ≤ bb ∧ bb ≤ 255) := by
  unfold F64.pixelColor
  by_cases h : i = maxIter
  · rw [if_pos h]
    refine ⟨0, 0, 0, ?_, by norm_num, by norm_num, by norm_num⟩
    have hz : Dbl.lit 0 = Dbl.ofInt 0 := by
      unfold Dbl.lit Dbl.ofInt
      rw [dbl_round_zero]; simp
    rw [hz]
  · rw [if_neg h]
    have hm : 0 < maxIter := by omega
    obtain ⟨t, ht, ht0, ht1⟩ := f64_escapeFraction i maxIter hm hi
    simp only [ht]
    exact f64_getHeatmapColor_bytes pow hpow t ht0 ht1

/-! ## Raster loop in binary64 -/

theorem dbl_toInt_ofInt (n : ℤ) : Dbl.toInt? (Dbl.ofInt n) = some n := by
  show (if ((⌊(n : ℚ)⌋ : ℤ) : ℚ) = (n : ℚ) then some ⌊(n : ℚ)⌋ else none) = some n
  rw [Int.floor_intCast, if_pos rfl]

theorem f64_dimInt_ofInt (n : ℤ) : F64.dimInt (Dbl.ofInt n) = n := by
  unfold F64.dimInt
  rw [dbl_toInt_ofInt]
  rfl

theorem f64_store_natCast (data : List ℤ) (k : ℕ) (v : Dbl) :
    F64.store data (k : ℤ) v = data.set k (Dbl.toUint8Clamp v) := by
  unfold F64.store
  rw [if_pos (Int.natCast_nonneg k), Int.toNat_natCast]

theorem dbl_toUint8Clamp_255 : Dbl.toUint8Clamp (Dbl.lit 255) = 255 := by
  rw [dbl_lit_255]
  have := toUint8Clamp_ofInt 255 (by norm_num) (by norm_num)
  simpa [Dbl.ofInt] using this

theorem f64_renderPixel_eq (pow : Dbl → Dbl → Dbl) (s : F64.State) (wn : ℕ) (w h : Dbl)
    (hw : F64.dimInt w = (wn : ℤ)) (data : List ℤ) (y x : ℕ) :
    F64.renderPixel pow s w h data y x =
      ((((data.set ((y * wn + x) * 4)
            (Dbl.toUint8Clamp (F64.pixelColorAt pow s w h x y).1)).set
          ((y * wn + x) * 4 + 1) (Dbl.toUint8Clamp (F64.pixelColorAt pow s w h x y).2.1)).set
          ((y * wn + x) * 4 + 2) (Dbl.toUint8Clamp (F64.pixelColorAt pow s w h x y).2.2)).set
          ((y * wn + x) * 4 + 3) 255) := by
  have h0 : ((y : ℤ) * (wn : ℤ) + (x : ℤ)) * 4 = (((y * wn + x) * 4 : ℕ) : ℤ) := by
    push_cast; ring
  have h1 : ((((y * wn + x) * 4 : ℕ) : ℤ)) + 1 = (((y * wn + x) * 4 + 1 : ℕ) : ℤ) := by
    push_cast; ring
  have h2 : ((((y * wn + x) * 4 : ℕ) : ℤ)) + 2 = (((y * wn + x) * 4 + 2 : ℕ) : ℤ) := by
    push_cast; ring
  have h3 : ((((y * wn + x) * 4 : ℕ) : ℤ)) + 3 = (((y * wn + x) * 4 + 3 : ℕ) : ℤ) := by
    push_cast; ring
  unfold F64.renderPixel
  simp only [hw, h0, h1, h2, h3, f64_store_natCast, dbl_toUint8Clamp_255]
  rfl

theorem f64_renderPixel_length (pow : Dbl → Dbl → Dbl) (s : F64.State) (wn : ℕ) (w h : Dbl)
    (hw : F64.dimInt w = (wn : ℤ)) (data : List ℤ) (y x : ℕ) :
    (F64.renderPixel pow s w h data y x).length = data.length := by
  rw [f64_renderPixel_eq pow s wn w h hw]
  simp only [List.length_set]

theorem f64_renderPixel_other (pow : Dbl → Dbl → Dbl) (s : F64.State) (wn : ℕ) (w h : Dbl)
    (hw : F64.dimInt w = (wn : ℤ)) (data : List ℤ) (y x n : ℕ)
    (hn : n < (y * wn + x) * 4 ∨ (y * wn + x) * 4 + 4 ≤ n) :
    (F64.renderPixel pow s w h data y x)[n]? = data[n]? := by
  rw [f64_renderPixel_eq pow s wn w h hw]
  rw [List.getElem?_set_ne (by omega), List.getElem?_set_ne (by omega),
    List.getElem?_set_ne (by omega), List.getElem?_set_ne (by omega)]

theorem f64_renderPixel_holds (pow : Dbl → Dbl → Dbl) (hpow : F64.PowInUnit pow)
    (s : F64.State) (wn : ℕ) (w h : Dbl) (hw : F64.dimInt w = (wn : ℤ)) (data : List ℤ)
    (y x : ℕ) (hb : (y * wn + x) * 4 + 3 < data.length) :
    F64.HoldsPixel (F64.renderPixel pow s w h data y x) ((y * wn + x) * 4)
      (F64.pixelColorAt pow s w h x y) := by
  obtain ⟨rb, gb, bb, hcol, hr, hg, hbl⟩ := f64_pixelColor_bytes pow hpow
    (F64.iterate (F64.fractalX s w (Dbl.ofNat x)) (F64.fractalY s h (Dbl.ofNat y)) s.maxIter)
    s.maxIter (f64_iterate_spec _ _ _).1
  have hcol2 : F64.pixelColorAt pow s w h x y = (Dbl.ofInt rb, Dbl.ofInt gb, Dbl.ofInt bb) :=
    hcol
  rw [f64_renderPixel_eq pow s wn w h hw, hcol2]
  simp only [toUint8Clamp_ofInt rb hr.1 hr.2, toUint8Clamp_ofInt gb hg.1 hg.2,
    toUint8Clamp_ofInt bb hbl.1 hbl.2]
  unfold F64.HoldsPixel
  refine ⟨?_, ?_, ?_, ?_⟩
  · rw [List.getElem?_set_ne (by omega), List.getElem?_set_ne (by omega),
      List.getElem?_set_ne (by omega), List.getElem?_set_self (by omega)]
    rfl
  · rw [List.getElem?_set_ne (by omega), List.getElem?_set_ne (by omega),
      List.getElem?_set_self (by simp only [List.length_set]; omega)]
    rfl
  · rw [List.getElem?_set_ne (by omega),
      List.getElem?_set_self (by simp only [List.length_set]; omega)]
    rfl
  · rw [List.getElem?_set_self (by simp only [List.length_set]; omega)]

theorem f64_HoldsPixel_congr (d1 d2 : List ℤ) (k : ℕ) (c : Dbl × Dbl × Dbl)
    (hsame : ∀ n, k ≤ n → n < k + 4 → d2[n]? = d1[n]?) (h : F64.HoldsPixel d1 k c) :
    F64.HoldsPixel d2 k c := by
  unfold F64.HoldsPixel at h ⊢
  rw [hsame k (by omega) (by omega), hsame (k + 1) (by omega) (by omega),
    hsame (k + 2) (by omega) (by omega), hsame (k + 3) (by omega) (by omega)]
  exact h

/-- Invariant of the inner loop after `n` columns of row `y`. -/
theorem f64_renderCols_spec (pow : Dbl → Dbl → Dbl) (hpow : F64.PowInUnit pow)
    (s : F64.State) (wn : ℕ) (w h : Dbl) (hw : F64.dimInt w = (wn : ℤ)) (data : List ℤ)
    (y : ℕ) :
    ∀ n : ℕ,
      ((List.range n).foldl (fun d x => F64.renderPixel pow s w h d y x) data).length
        = data.length ∧
      (∀ k, k < (y * wn) * 4 ∨ (y * wn + n) * 4 ≤ k →
        ((List.range n).foldl (fun d x => F64.renderPixel pow s w h d y x) data)[k]?
          = data[k]?) ∧
      (∀ x, x < n → (y * wn + x) * 4 + 3 < data.length →
        F64.HoldsPixel
          ((List.range n).foldl (fun d x => F64.renderPixel pow s w h d y x) data)
          ((y * wn + x) * 4) (F64.pixelColorAt pow s w h x y)) := by
  intro n
  induction n with
  | zero =>
    refine ⟨rfl, fun k _ => rfl, fun x hx => absurd hx (Nat.not_lt_zero x)⟩
  | succ n ih =>
    obtain ⟨ihlen, ihother, ihpix⟩ := ih
    rw [List.range_succ, List.foldl_append]
    simp only [List.foldl_cons, List.foldl_nil]
    refine ⟨?_, ?_, ?_⟩
    · rw [f64_renderPixel_length pow s wn w h hw, ihlen]
    · intro k hk
      rw [f64_renderPixel_other pow s wn w h hw _ _ _ _ (by omega)]
      exact ihother k (by omega)
    · intro x hx hb
      by_cases hxn : x = n
      · subst hxn
        exact f64_renderPixel_holds pow hpow s wn w h hw _ _ _ (by rw [ihlen]; exact hb)
      · have hlt : x < n := by omega
        apply f64_HoldsPixel_congr _ _ _ _ _ (ihpix x hlt hb)
        intro k hk1 hk2
        exact f64_renderPixel_other pow s wn w h hw _ _ _ _ (by omega)

theorem f64_renderRow_eq (pow : Dbl → Dbl → Dbl) (s : F64.State) (wn : ℕ) (w h : Dbl)
    (hw : F64.dimInt w = (wn : ℤ)) (data : List ℤ) (y : ℕ) :
    F64.renderRow pow s w h data y =
      (List.range wn).foldl (fun d x => F64.renderPixel pow s w h d y x) data := by
  unfold F64.renderRow
  rw [hw, Int.toNat_natCast]

theorem raster_index_bound (wn y m x : ℕ) (hy : y < m) (hx : x < wn) :
    (y * wn + x) * 4 + 4 ≤ (m * wn) * 4 := by
  have h1 : (y + 1) * wn ≤ m * wn := Nat.mul_le_mul_right wn hy
  have h2 : (y + 1) * wn = y * wn + wn := by ring
  omega

/-- Invariant of the outer loop after `m` rows. -/
theorem f64_renderRows_spec (pow : Dbl → Dbl → Dbl) (hpow : F64.PowInUnit pow)
    (s : F64.State) (wn : ℕ) (w h : Dbl) (hw : F64.dimInt w = (wn : ℤ)) (data : List ℤ) :
    ∀ m : ℕ,
      ((List.range m).foldl (fun d y => F64.renderRow pow s w h d y) data).length
        = data.length ∧
      (∀ k, (m * wn) * 4 ≤ k →
        ((List.range m).foldl (fun d y => F64.renderRow pow s w h d y) data)[k]?
          = data[k]?) ∧
      (∀ y x, y < m → x < wn → (y * wn + x) * 4 + 3 < data.length →
        F64.HoldsPixel ((List.range m).foldl (fun d y => F64.renderRow pow s w h d y) data)
          ((y * wn + x) * 4) (F64.pixelColorAt pow s w h x y)) := by
  intro m
  induction m with
  | zero =>
    refine ⟨rfl, fun k _ => rfl, fun y x hy => absurd hy (Nat.not_lt_zero y)⟩
  | succ m ih =>
    obtain ⟨ihlen, ihother, ihpix⟩ := ih
    rw [List.range_succ, List.foldl_append]
    simp only [List.foldl_cons, List.foldl_nil]
    rw [f64_renderRow_eq pow s wn w h hw]
    obtain ⟨clen, cother, cpix⟩ := f64_renderCols_spec pow hpow s wn w h hw
      ((List.range m).foldl (fun d y => F64.renderRow pow s w h d y) data) m wn
    have hsucc : (m + 1) * wn = m * wn + wn := by ring
    refine ⟨?_, ?_, ?_⟩
    · rw [clen, ihlen]
    · intro k hk
      rw [cother k (by omega)]
      exact ihother k (by omega)
    · intro y x hy hx hb
      by_cases hym : y = m
      · subst hym
        exact cpix x hx (by rw [ihlen]; exact hb)
      · have hlt : y < m := by omega
        have hbound := raster_index_bound wn y m x hlt hx
        apply f64_HoldsPixel_congr _ _ _ _ _ (ihpix y x hlt hx hb)
        intro k hk1 hk2
        exact cother k (by omega)

theorem f64_createImageData_ofInt (wn hn : ℕ) :
    F64.createImageData (Dbl.ofInt (wn : ℤ)) (Dbl.ofInt (hn : ℤ)) =
      if ((wn : ℤ) = 0 ∨ (hn : ℤ) = 0 ∨ (wn : ℤ) < -2 ^ 31 ∨ 2 ^ 31 ≤ (wn : ℤ)
          ∨ (hn : ℤ) < -2 ^ 31 ∨ 2 ^ 31 ≤ (hn : ℤ) ∨ 2 ^ 53 ≤ 4 * wn * hn) then none
      else some (List.replicate (4 * wn * hn) (0 : ℤ)) := by
  unfold F64.createImageData
  rw [dbl_toInt_ofInt, dbl_toInt_ofInt]
  simp only [Int.natAbs_ofNat]

theorem f64_renderFractal_eq (pow : Dbl → Dbl → Dbl) (s : F64.State) (W H wn hn : ℕ)
    (hw : F64.rasterDim W s.scale = Dbl.ofInt (wn : ℤ))
    (hh : F64.rasterDim H s.scale = Dbl.ofInt (hn : ℤ)) :
    F64.renderFractal pow s W H =
      if ((wn : ℤ) = 0 ∨ (hn : ℤ) = 0 ∨ (wn : ℤ) < -2 ^ 31 ∨ 2 ^ 31 ≤ (wn : ℤ)
          ∨ (hn : ℤ) < -2 ^ 31 ∨ 2 ^ 31 ≤ (hn : ℤ) ∨ 2 ^ 53 ≤ 4 * wn * hn) then none
      else some ((List.range hn).foldl
        (fun d y => F64.renderRow pow s (Dbl.ofInt (wn : ℤ)) (Dbl.ofInt (hn : ℤ)) d y)
        (List.replicate (4 * wn * hn) (0 : ℤ))) := by
  unfold F64.renderFractal
  simp only [hw, hh, f64_createImageData_ofInt]
  split
  · rfl
  · unfold F64.renderRows
    rw [f64_dimInt_ofInt, Int.toNat_natCast]
    rfl

theorem dbl_ofInt_injective (a b : ℤ) (h : Dbl.ofInt a = Dbl.ofInt b) : a = b := by
  unfold Dbl.ofInt at h
  injection h with h
  exact_mod_cast h

/-- C3: postcondition of the render loop, in the binary64 arithmetic of the code. For
every canvas size `(W, H)`, scale, zoom, offset and `maxIter > 0`, with
`w = floor(W*scale)`, `h = floor(H*scale)`, and every raster pixel `(x, y)` with
`x < w`, `y < h`: the index `(y*w + x)*4 + 3` is below `w*h*4`; `createImageData`
yields the buffer whenever `w, h < 2^31` and `4*w*h < 2^53`; and when the loops end
the buffer has `w*h*4` entries and the four entries at
`(y*w + x)*4 .. (y*w + x)*4 + 3` are `(r, g, b, 255)`, where `i` is the escape count
of the point `((x - w/2)/(zoom*scale) + offset.x, (y - h/2)/(zoom*scale) + offset.y)`
and `(r, g, b)` is `(0, 0, 0)` if `i = maxIter` and `getHeatmapColor (i / maxIter)`
otherwise. `Math.pow` is any function mapping `[0, 1]` into `[0, 1]`. -/
theorem f64_renderFractal_pixel (pow : Dbl → Dbl → Dbl) (s : F64.State) (W H x y : ℕ)
    (w h : ℤ) (i : ℕ) (c : Dbl × Dbl × Dbl)
    (hpow : F64.PowInUnit pow)
    (hw : F64.rasterDim W s.scale = Dbl.ofInt w) (hh : F64.rasterDim H s.scale = Dbl.ofInt h)
    (hi : i = F64.iterate
      ((Dbl.ofNat x - Dbl.ofInt w / Dbl.lit 2) / (s.zoom * s.scale) + s.offset.x)
      ((Dbl.ofNat y - Dbl.ofInt h / Dbl.lit 2) / (s.zoom * s.scale) + s.offset.y) s.maxIter)
    (hc : c = if i = s.maxIter then (Dbl.lit 0, Dbl.lit 0, Dbl.lit 0)
      else F64.getHeatmapColor pow (Dbl.ofNat i / Dbl.ofNat s.maxIter))
    (hm : 0 < s.maxIter) (hx : (x : ℤ) < w) (hy : (y : ℤ) < h) :
    ((y : ℤ) * w + (x : ℤ)) * 4 + 3 < w * h * 4 ∧
    (w < 2 ^ 31 → h < 2 ^ 31 → 4 * w * h < 2 ^ 53 →
      ∃ data, F64.renderFractal pow s W H = some data) ∧
    (∀ data, F64.renderFractal pow s W H = some data →
      ((data.length : ℤ) = w * h * 4 ∧
       (data[(((y : ℤ) * w + (x : ℤ)) * 4).toNat]?).map Dbl.ofInt = some c.1 ∧
       (data[(((y : ℤ) * w + (x : ℤ)) * 4).toNat + 1]?).map Dbl.ofInt = some c.2.1 ∧
       (data[(((y : ℤ) * w + (x : ℤ)) * 4).toNat + 2]?).map Dbl.ofInt = some c.2.2 ∧
       data[(((y : ℤ) * w + (x : ℤ)) * 4).toNat + 3]? = some 255)) := by
  have _ := hm
  have hw0 : 0 ≤ w := by omega
  have hh0 : 0 ≤ h := by omega
  obtain ⟨wn, rfl⟩ := Int.eq_ofNat_of_zero_le hw0
  obtain ⟨hn, rfl⟩ := Int.eq_ofNat_of_zero_le hh0
  have hxn : x < wn := by exact_mod_cast hx
  have hyn : y < hn := by exact_mod_cast hy
  have hidx : (((y : ℤ) * (wn : ℤ) + (x : ℤ)) * 4).toNat = (y * wn + x) * 4 := by
    have : ((y : ℤ) * (wn : ℤ) + (x : ℤ)) * 4 = (((y * wn + x) * 4 : ℕ) : ℤ) := by
      push_cast; ring
    rw [this, Int.toNat_natCast]
  have hbound := raster_index_bound wn y hn x hyn hxn
  have hcol : c = F64.pixelColorAt pow s (Dbl.ofInt (wn : ℤ)) (Dbl.ofInt (hn : ℤ)) x y := by
    rw [hc, hi]
    rfl
  have hlen0 : (List.replicate (4 * wn * hn) (0 : ℤ)).length = hn * wn * 4 := by
    rw [List.length_replicate]; ring
  have hEq := f64_renderFractal_eq pow s W H wn hn hw hh
  refine ⟨?_, ?_, ?_⟩
  · have : (((y * wn + x) * 4 + 4 : ℕ) : ℤ) ≤ ((hn * wn * 4 : ℕ) : ℤ) := by
      exact_mod_cast hbound
    push_cast at this
    nlinarith
  · intro hw31 hh31 hsz
    have hszN : 4 * wn * hn < 2 ^ 53 := by exact_mod_cast hsz
    have hcond : ¬ ((wn : ℤ) = 0 ∨ (hn : ℤ) = 0 ∨ (wn : ℤ) < -2 ^ 31 ∨ 2 ^ 31 ≤ (wn : ℤ)
        ∨ (hn : ℤ) < -2 ^ 31 ∨ 2 ^ 31 ≤ (hn : ℤ) ∨ 2 ^ 53 ≤ 4 * wn * hn) := by
      intro hcon
      rcases hcon with h1 | h1 | h1 | h1 | h1 | h1 | h1
      · omega
      · omega
      · omega
      · omega
      · omega
      · omega
      · exact absurd hszN (not_lt.mpr h1)
    rw [hEq, if_neg hcond]
    exact ⟨_, rfl⟩
  · intro data hdata
    rw [hEq] at hdata
    split at hdata
    · exact absurd hdata (by simp)
    · injection hdata with hdata
      obtain ⟨rlen, _, rpix⟩ := f64_renderRows_spec pow hpow s wn (Dbl.ofInt (wn : ℤ))
        (Dbl.ofInt (hn : ℤ)) (f64_dimInt_ofInt _) (List.replicate (4 * wn * hn) (0 : ℤ)) hn
      have hpix := rpix y x hyn hxn (by rw [hlen0]; omega)
      rw [← hcol, hdata] at hpix
      rw [hdata] at rlen
      rw [hidx]
      refine ⟨?_, hpix.1, hpix.2.1, hpix.2.2.1, hpix.2.2.2⟩
      rw [rlen, hlen0]
      push_cast
      ring

/-! ## The scenario: the centre pixel of an 800 x 600 surface -/

theorem dbl_round_true_zero : Dbl.round true 0 = Dbl.negZero := by
  unfold Dbl.round
  rw [roundQ_zero]
  simp [Dbl.zero]

theorem dbl_negZero_add_zero : Dbl.negZero + Dbl.fin 0 = Dbl.fin 0 := by
  show Dbl.round (true && decide ((0 : ℚ) < 0)) ((0 : ℚ) + 0) = Dbl.fin 0
  have h : ((0 : ℚ) + 0) = 0 := by norm_num
  rw [h]
  simpa using dbl_round_zero

/-- One loop iteration from `(q, 0)` with `q` in `[-1/2, -1/4]` for the point
`c = -1/2`: the test passes and the next state is again of that form. -/
theorem f64_step_minus_half (q : ℚ) (h1 : -1 / 2 ≤ q) (h2 : q ≤ -1 / 4) :
    Dbl.le (Dbl.fin q * Dbl.fin q + Dbl.fin 0 * Dbl.fin 0) (Dbl.lit 4) = true ∧
    ∃ q2 : ℚ, F64.orbitStep (Dbl.fin (-1 / 2), Dbl.fin 0) (Dbl.fin q, Dbl.fin 0)
        = (Dbl.fin q2, Dbl.fin 0) ∧ -1 / 2 ≤ q2 ∧ q2 ≤ -1 / 4 := by
  have hqneg : decide (q < 0) = true := by
    have : q < 0 := by linarith
    simpa using this
  have hquarter : ((1 : ℤ) : ℚ) * (2 : ℚ) ^ (-2 : ℤ) = 1 / 4 := by norm_num
  -- a * a
  have hsq0 : (0 : ℚ) ≤ q * q := mul_self_nonneg q
  have hsq1 : q * q ≤ ((1 : ℤ) : ℚ) * (2 : ℚ) ^ (-2 : ℤ) := by
    rw [hquarter]; nlinarith
  obtain ⟨r, hr, hr0, hr1⟩ := dbl_round_nonneg_range (q * q) 1 (-2) (by norm_num)
    (by norm_num) (by norm_num) hsq0 hsq1
  rw [hquarter] at hr1
  have haa : Dbl.fin q * Dbl.fin q = Dbl.fin r := by
    rw [dbl_mul_fin, hqneg]
    exact hr
  -- b * b
  have hbb : Dbl.fin 0 * Dbl.fin 0 = Dbl.fin 0 := by
    rw [dbl_mul_fin]
    have h : ((0 : ℚ) * 0) = 0 := by norm_num
    rw [h]
    simpa using dbl_round_zero
  -- a * a + b * b
  have hrneg : decide (r < 0) = false := dbl_decide_neg_false r hr0
  obtain ⟨r3, hr3, hr30, hr31⟩ := dbl_round_nonneg_range (r + 0) 1 (-2) (by norm_num)
    (by norm_num) (by norm_num) (by linarith) (by rw [hquarter]; linarith)
  rw [hquarter] at hr31
  have hsum : Dbl.fin r + Dbl.fin 0 = Dbl.fin r3 := by
    rw [dbl_add_fin, hrneg]
    exact hr3
  -- a * a - b * b
  have hdiff : Dbl.fin r - Dbl.fin 0 = Dbl.fin r3 := by
    show Dbl.add (Dbl.fin r) (Dbl.neg (Dbl.fin 0)) = _
    have hneg0 : Dbl.neg (Dbl.fin 0) = Dbl.negZero := by simp [Dbl.neg]
    rw [hneg0]
    show Dbl.round (decide (r < 0) && true) (r + 0) = _
    rw [hrneg]
    exact hr3
  -- a * a - b * b + zx
  have hlo : ((-1 : ℤ) : ℚ) * (2 : ℚ) ^ (-1 : ℤ) = -1 / 2 := by norm_num
  have hhi : ((-1 : ℤ) : ℚ) * (2 : ℚ) ^ (-2 : ℤ) = -1 / 4 := by norm_num
  obtain ⟨q2, hq2, hq2lo, hq2hi⟩ := dbl_round_neg_range
    (decide (r3 < 0) && decide ((-1 / 2 : ℚ) < 0)) (r3 + -1 / 2) (-1) (-1) (-1) (-2)
    (by norm_num) (by norm_num) (by norm_num) (by norm_num) (by norm_num)
    (by norm_num) (by rw [hlo]; linarith) (by rw [hhi]; linarith)
  rw [hlo] at hq2lo
  rw [hhi] at hq2hi
  have hnew : Dbl.fin r3 + Dbl.fin (-1 / 2) = Dbl.fin q2 := by
    rw [dbl_add_fin]
    exact hq2
  -- 2 * a
  have hlo2 : ((-1 : ℤ) : ℚ) * (2 : ℚ) ^ (0 : ℤ) = -1 := by norm_num
  obtain ⟨t, ht, htlo, hthi⟩ := dbl_round_neg_range
    (xor (decide ((2 : ℚ) < 0)) (decide (q < 0))) (2 * q) (-1) 0 (-1) (-1)
    (by norm_num) (by norm_num) (by norm_num) (by norm_num) (by norm_num)
    (by norm_num) (by rw [hlo2]; linarith) (by rw [hlo]; linarith)
  rw [hlo] at hthi
  have h2a : Dbl.fin 2 * Dbl.fin q = Dbl.fin t := by
    rw [dbl_mul_fin]
    exact ht
  have htneg : decide (t < 0) = true := by
    have : t < 0 := by linarith
    simpa using this
  -- 2 * a * b
  have h2ab : Dbl.fin t * Dbl.fin 0 = Dbl.negZero := by
    rw [dbl_mul_fin, htneg]
    have h : (t * 0) = 0 := by ring
    rw [h]
    have hd : (xor true (decide ((0 : ℚ) < 0))) = true := by simp
    rw [hd]
    exact dbl_round_true_zero
  constructor
  · rw [haa, hbb, hsum, dbl_lit_four]
    show decide (r3 ≤ 4) = true
    have : r3 ≤ 4 := by linarith
    simpa using this
  · refine ⟨q2, ?_, hq2lo, hq2hi⟩
    unfold F64.orbitStep
    simp only [haa, hbb, hdiff, hnew, dbl_lit_two, h2a, h2ab, dbl_negZero_add_zero]

/-- The binary64 orbit of `c = -1/2` stays on the real axis, in `[-1/2, -1/4]`. -/
theorem f64_orbit_minus_half (k : ℕ) :
    ∃ q : ℚ, F64.orbit (Dbl.fin (-1 / 2), Dbl.fin 0) k = (Dbl.fin q, Dbl.fin 0) ∧
      -1 / 2 ≤ q ∧ q ≤ -1 / 4 := by
  induction k with
  | zero => exact ⟨-1 / 2, rfl, le_rfl, by norm_num⟩
  | succ k ih =>
    obtain ⟨q, hq, h1, h2⟩ := ih
    obtain ⟨_, q2, hq2, h3, h4⟩ := f64_step_minus_half q h1 h2
    refine ⟨q2, ?_, h3, h4⟩
    show F64.orbitStep (Dbl.fin (-1 / 2), Dbl.fin 0) (F64.orbit (Dbl.fin (-1 / 2), Dbl.fin 0) k) = _
    rw [hq]
    exact hq2

theorem f64_iterate_minus_half (maxIter : ℕ) :
    F64.iterate (Dbl.fin (-1 / 2)) (Dbl.fin 0) maxIter = maxIter := by
  obtain ⟨hle, _, hesc⟩ := f64_iterate_spec (Dbl.fin (-1 / 2)) (Dbl.fin 0) maxIter
  by_contra hne
  have hlt : F64.iterate (Dbl.fin (-1 / 2)) (Dbl.fin 0) maxIter < maxIter := by omega
  have h4 := hesc hlt
  obtain ⟨q, hq, h1, h2⟩ := f64_orbit_minus_half
    (F64.iterate (Dbl.fin (-1 / 2)) (Dbl.fin 0) maxIter)
  rw [hq] at h4
  have htest := (f64_step_minus_half q h1 h2).1
  simp [F64.escaped, htest] at h4

theorem f64_powInUnit_id : F64.PowInUnit (fun t _ => t) :=
  fun q _ h0 h1 => ⟨q, rfl, h0, h1⟩

theorem f64_scenario_zx :
    (Dbl.ofNat 400 - Dbl.ofInt 800 / Dbl.lit 2) / (F64.scenarioState.zoom * F64.scenarioState.scale)
      + F64.scenarioState.offset.x = Dbl.fin (-1 / 2) := by
  have hz : F64.scenarioState.zoom = Dbl.lit 200 := rfl
  have hs : F64.scenarioState.scale = Dbl.lit 1 := rfl
  have ho : F64.scenarioState.offset.x = -Dbl.lit 0.5 := rfl
  have h400 : Dbl.ofNat 400 = Dbl.fin 400 := by simp [Dbl.ofNat]
  have h800 : Dbl.ofInt 800 = Dbl.fin 800 := by simp [Dbl.ofInt]
  have hneg : -Dbl.fin (1 / 2) = Dbl.fin (-1 / 2) := by
    rw [dbl_neg_fin _ (by norm_num)]
    congr 1
    norm_num
  rw [hz, hs, ho, h400, h800, dbl_lit_two, dbl_lit_200, dbl_lit_one, dbl_lit_half, hneg,
    scn_halfw, scn_dx, scn_zs, scn_q0, scn_zx]

theorem f64_scenario_zy :
    (Dbl.ofNat 300 - Dbl.ofInt 600 / Dbl.lit 2) / (F64.scenarioState.zoom * F64.scenarioState.scale)
      + F64.scenarioState.offset.y = Dbl.fin 0 := by
  have hz : F64.scenarioState.zoom = Dbl.lit 200 := rfl
  have hs : F64.scenarioState.scale = Dbl.lit 1 := rfl
  have ho : F64.scenarioState.offset.y = Dbl.lit 0 := rfl
  have h300 : Dbl.ofNat 300 = Dbl.fin 300 := by simp [Dbl.ofNat]
  have h600 : Dbl.ofInt 600 = Dbl.fin 600 := by simp [Dbl.ofInt]
  rw [hz, hs, ho, h300, h600, dbl_lit_two, dbl_lit_200, dbl_lit_one, dbl_lit_zero,
    scn_halfh, scn_dy, scn_zs, scn_q0, scn_zy]

theorem f64_scenario_w : F64.rasterDim 800 F64.scenarioState.scale = Dbl.ofInt 800 := by
  have hs : F64.scenarioState.scale = Dbl.lit 1 := rfl
  have h800 : Dbl.ofNat 800 = Dbl.fin 800 := by simp [Dbl.ofNat]
  have hfl : ⌊(800 : ℚ)⌋ = 800 := by
    rw [Int.floor_eq_iff]; norm_num
  unfold F64.rasterDim
  rw [hs, h800, dbl_lit_one, scn_w]
  show Dbl.fin ((⌊(800 : ℚ)⌋ : ℤ) : ℚ) = Dbl.fin ((800 : ℤ) : ℚ)
  rw [hfl]

theorem f64_scenario_h : F64.rasterDim 600 F64.scenarioState.scale = Dbl.ofInt 600 := by
  have hs : F64.scenarioState.scale = Dbl.lit 1 := rfl
  have h600 : Dbl.ofNat 600 = Dbl.fin 600 := by simp [Dbl.ofNat]
  have hfl : ⌊(600 : ℚ)⌋ = 600 := by
    rw [Int.floor_eq_iff]; norm_num
  unfold F64.rasterDim
  rw [hs, h600, dbl_lit_one, scn_h]
  show Dbl.fin ((⌊(600 : ℚ)⌋ : ℤ) : ℚ) = Dbl.fin ((600 : ℤ) : ℚ)
  rw [hfl]

theorem dbl_map_ofInt_zero (o : Option ℤ) (h : o.map Dbl.ofInt = some (Dbl.lit 0)) :
    o = some 0 := by
  cases o with
  | none => simp at h
  | some v =>
    simp only [Option.map_some'] at h
    injection h with h
    have hz : Dbl.lit 0 = Dbl.ofInt 0 := by
      rw [dbl_lit_zero]; simp [Dbl.ofInt]
    rw [hz] at h
    rw [dbl_ofInt_injective v 0 h]

theorem f64_renderFractal_pixel_witness :
    F64.fractalX F64.scenarioState (Dbl.ofInt 800) (Dbl.ofNat 400) = Dbl.fin (-1 / 2) ∧
    F64.fractalY F64.scenarioState (Dbl.ofInt 600) (Dbl.ofNat 300) = Dbl.fin 0 ∧
    F64.iterate (Dbl.fin (-1 / 2)) (Dbl.fin 0) F64.scenarioState.maxIter = 100 ∧
    ∃ data, F64.renderFractal (fun t _ => t) F64.scenarioState 800 600 = some data ∧
      data[961600]? = some 0 ∧ data[961600 + 1]? = some 0 ∧ data[961600 + 2]? = some 0 ∧
      data[961600 + 3]? = some 255 := by
  have hmax : F64.scenarioState.maxIter = 100 := rfl
  have hidx : ((((300 : ℕ) : ℤ) * 800 + ((400 : ℕ) : ℤ)) * 4).toNat = 961600 := by
    norm_num
    rfl
  have h := f64_renderFractal_pixel (fun t _ => t) F64.scenarioState 800 600 400 300 800 600
    100 (Dbl.lit 0, Dbl.lit 0, Dbl.lit 0) f64_powInUnit_id f64_scenario_w f64_scenario_h
    (by rw [f64_scenario_zx, f64_scenario_zy, hmax, f64_iterate_minus_half])
    (by rw [hmax]; simp) (by rw [hmax]; decide) (by norm_num) (by norm_num)
  rw [hidx] at h
  obtain ⟨data, hdata⟩ := h.2.1 (by norm_num) (by norm_num) (by norm_num)
  obtain ⟨_, e0, e1, e2, e3⟩ := h.2.2 data hdata
  refine ⟨f64_scenario_zx, f64_scenario_zy, by rw [hmax, f64_iterate_minus_half], data, hdata,
    dbl_map_ofInt_zero _ e0, dbl_map_ofInt_zero _ e1, dbl_map_ofInt_zero _ e2, e3⟩

/-! ## The rendered point under the cursor -/

theorem rasterDim_eval (W : ℕ) (scale p : ℚ) (n : ℤ)
    (hmul : Dbl.fin (W : ℚ) * Dbl.fin scale = Dbl.fin p) (hfl : ⌊p⌋ = n) :
    rasterDim W scale = n := by
  unfold rasterDim F64.rasterDim
  show F64.dimInt (Dbl.floor (Dbl.fin (W : ℚ) * Dbl.fin scale)) = n
  rw [hmul]
  show F64.dimInt (Dbl.fin ((⌊p⌋ : ℤ) : ℚ)) = n
  rw [hfl]
  exact f64_dimInt_ofInt n

theorem rasterDim_801_half : rasterDim 801 (1 / 2) = 400 :=
  rasterDim_eval 801 (1 / 2) (801 / 2) 400 (by simpa using ras_801)
    (by rw [Int.floor_eq_iff]; norm_num)

theorem rasterDim_601_half : rasterDim 601 (1 / 2) = 300 :=
  rasterDim_eval 601 (1 / 2) (601 / 2) 300 (by simpa using ras_601)
    (by rw [Int.floor_eq_iff]; norm_num)

theorem rasterDim_800_half : rasterDim 800 (1 / 2) = 400 :=
  rasterDim_eval 800 (1 / 2) 400 400 (by simpa using ras_800)
    (by rw [Int.floor_eq_iff]; norm_num)

theorem rasterDim_600_half : rasterDim 600 (1 / 2) = 300 :=
  rasterDim_eval 600 (1 / 2) 300 300 (by simpa using ras_600)
    (by rw [Int.floor_eq_iff]; norm_num)

theorem initialState_scale : initialState.scale = 1 / 2 := by
  show (0.5 : ℚ) = 1 / 2
  norm_num

/-- When `canvasDim * scale` is an integer, the render-space transform at the stretched
raster coordinate is the pointer-space transform of `handleWheel`. -/
theorem shownX_eq_pointer (s : State) (W : ℕ) (mouseX : ℚ) (hs : s.scale ≠ 0)
    (hW : 0 < W) (hw : ((rasterDim W s.scale : ℤ) : ℚ) = (W : ℚ) * s.scale) :
    shownX s W mouseX = (mouseX - (W : ℚ) / 2) / s.zoom + s.offset.x := by
  have hW0 : (W : ℚ) ≠ 0 := by exact_mod_cast (Nat.pos_iff_ne_zero.mp hW)
  unfold shownX fractalX
  simp only [hw]
  by_cases hz : s.zoom = 0
  · simp [hz]
  · field_simp
    ring

theorem shownY_eq_pointer (s : State) (H : ℕ) (mouseY : ℚ) (hs : s.scale ≠ 0)
    (hH : 0 < H) (hh : ((rasterDim H s.scale : ℤ) : ℚ) = (H : ℚ) * s.scale) :
    shownY s H mouseY = (mouseY - (H : ℚ) / 2) / s.zoom + s.offset.y := by
  have hH0 : (H : ℚ) ≠ 0 := by exact_mod_cast (Nat.pos_iff_ne_zero.mp hH)
  unfold shownY fractalY
  simp only [hh]
  by_cases hz : s.zoom = 0
  · simp [hz]
  · field_simp
    ring

theorem f64_wheelAt_zoom (W H : ℕ) (mouseX mouseY deltaY : Dbl) (s : F64.State) :
    (F64.wheelAt W H mouseX mouseY deltaY s).zoom = s.zoom * F64.wheelDelta deltaY := rfl

theorem f64_wheelAt_scale (W H : ℕ) (mouseX mouseY deltaY : Dbl) (s : F64.State) :
    (F64.wheelAt W H mouseX mouseY deltaY s).scale = s.scale := rfl

theorem f64_wheelAt_offset_x (W H : ℕ) (mouseX mouseY deltaY : Dbl) (s : F64.State) :
    (F64.wheelAt W H mouseX mouseY deltaY s).offset.x =
      s.offset.x + (((mouseX - Dbl.ofNat W / Dbl.lit 2) / s.zoom + s.offset.x) -
        ((mouseX - Dbl.ofNat W / Dbl.lit 2) / (s.zoom * F64.wheelDelta deltaY)
          + s.offset.x)) := rfl

theorem dbl_neg_half : -Dbl.fin (1 / 2) = Dbl.fin (-1 / 2) := by
  rw [dbl_neg_fin _ (by norm_num)]
  congr 1
  norm_num

theorem dbl_floor_400 : Dbl.floor (Dbl.fin 400) = Dbl.fin 400 := by
  show Dbl.fin ((⌊(400 : ℚ)⌋ : ℤ) : ℚ) = Dbl.fin 400
  have hfl : ⌊(400 : ℚ)⌋ = 400 := by
    rw [Int.floor_eq_iff]; norm_num
  rw [hfl]
  norm_num

theorem f64_wheelDelta_one : F64.wheelDelta (Dbl.fin 1)
    = Dbl.fin (8106479329266893 / 9007199254740992) := by
  unfold F64.wheelDelta
  rw [dbl_lit_zero]
  have hlt : Dbl.lt (Dbl.fin 0) (Dbl.fin 1) = true := by simp [Dbl.lt, Dbl.val]
  rw [if_pos hlt, dbl_lit_09]

theorem f64_rasterDim_800_half : F64.rasterDim 800 (Dbl.fin (1 / 2)) = Dbl.fin 400 := by
  have h800 : Dbl.ofNat 800 = Dbl.fin 800 := by simp [Dbl.ofNat]
  unfold F64.rasterDim
  rw [h800, ras_800, dbl_floor_400]

theorem f64_rasterDim_800_initial :
    F64.rasterDim 800 F64.initialState.scale = Dbl.fin 400 := by
  have hs : F64.initialState.scale = Dbl.lit 0.5 := rfl
  rw [hs, dbl_lit_half, f64_rasterDim_800_half]

/-- On an 800 x 600 canvas at the initial view (scale 0.5, so `w = 400 = W * scale`),
the renderer shows `-2` at device-pixel column 100. -/
theorem f64_shownX_before :
    F64.shownX F64.initialState 800 (Dbl.fin 100) = Dbl.fin (-2) := by
  have hz : F64.initialState.zoom = Dbl.lit 200 := rfl
  have hs : F64.initialState.scale = Dbl.lit 0.5 := rfl
  have ho : F64.initialState.offset.x = -Dbl.lit 0.5 := rfl
  have h800 : Dbl.ofNat 800 = Dbl.fin 800 := by simp [Dbl.ofNat]
  unfold F64.shownX F64.fractalX
  simp only [hz, hs, ho, f64_rasterDim_800_half, h800, dbl_lit_two, dbl_lit_200, dbl_lit_half,
    dbl_neg_half, whl_m1, whl_rx, whl_h2, whl_sx, whl_zs0, whl_b1, whl_xB]

/-- After one wheel step with `deltaY > 0` at the pointer `(100, 50)`, the renderer
shows `-2 + 2^-52` at device-pixel column 100. -/
theorem f64_shownX_after :
    F64.shownX (F64.wheelAt 800 600 (Dbl.fin 100) (Dbl.fin 50) (Dbl.fin 1) F64.initialState)
      800 (Dbl.fin 100) = Dbl.fin (-9007199254740991 / 4503599627370496) := by
  have hz : F64.initialState.zoom = Dbl.lit 200 := rfl
  have hs : F64.initialState.scale = Dbl.lit 0.5 := rfl
  have ho : F64.initialState.offset.x = -Dbl.lit 0.5 := rfl
  have h800 : Dbl.ofNat 800 = Dbl.fin 800 := by simp [Dbl.ofNat]
  unfold F64.shownX F64.fractalX
  simp only [f64_wheelAt_zoom, f64_wheelAt_scale, f64_wheelAt_offset_x, f64_wheelDelta_one,
    hz, hs, ho, f64_rasterDim_800_half, h800, dbl_lit_two, dbl_lit_200, dbl_lit_half,
    dbl_neg_half, scn_halfw, whl_dx, whl_xb1, whl_xB, whl_nz, whl_xa1, whl_xA, whl_df, whl_nx,
    whl_m1, whl_rx, whl_h2, whl_sx, whl_zs1, whl_a1, whl_after]

/-- C4, as stated, fails, in two ways. In exact arithmetic: on an 801 x 601 canvas at
scale 0.5 (raster 400 x 300), zoom 200, offset (-0.5, 0), pointer at (0, 0), one wheel
step with `deltaY > 0` changes the fractal coordinate shown at the pointer, in `x` and
in `y`. In the binary64 arithmetic of the code: on an 800 x 600 canvas at scale 0.5,
where `w = 400 = W * scale` exactly, one wheel step with `deltaY > 0` at the pointer
(100, 50) changes the shown `x` from `-2` to `-2 + 2^-52`. -/
theorem wheel_moves_shown_point :
    (0 < initialState.zoom ∧ 0 < initialState.scale ∧ initialState.scale ≤ 1 ∧
      shownX (wheelAt 801 601 0 0 1 initialState) 801 0 ≠ shownX initialState 801 0 ∧
      shownY (wheelAt 801 601 0 0 1 initialState) 601 0 ≠ shownY initialState 601 0) ∧
    (F64.rasterDim 800 F64.initialState.scale = Dbl.fin 400 ∧
      F64.shownX F64.initialState 800 (Dbl.fin 100) = Dbl.fin (-2) ∧
      F64.shownX
          (F64.wheelAt 800 600 (Dbl.fin 100) (Dbl.fin 50) (Dbl.fin 1) F64.initialState)
          800 (Dbl.fin 100) = Dbl.fin (-9007199254740991 / 4503599627370496) ∧
      F64.shownX
          (F64.wheelAt 800 600 (Dbl.fin 100) (Dbl.fin 50) (Dbl.fin 1) F64.initialState)
          800 (Dbl.fin 100) ≠ F64.shownX F64.initialState 800 (Dbl.fin 100)) := by
  have hs : (wheelAt 801 601 0 0 1 initialState).scale = 1 / 2 := initialState_scale
  have hs0 : initialState.scale = 1 / 2 := initialState_scale
  refine ⟨⟨by norm_num [initialState], by norm_num [initialState],
    by norm_num [initialState], ?_, ?_⟩, f64_rasterDim_800_initial, f64_shownX_before,
    f64_shownX_after, ?_⟩
  · unfold shownX
    rw [hs, hs0, rasterDim_801_half]
    norm_num [fractalX, wheelAt, wheelDelta, initialState]
  · unfold shownY
    rw [hs, hs0, rasterDim_601_half]
    norm_num [fractalY, wheelAt, wheelDelta, initialState]
  · rw [f64_shownX_before, f64_shownX_after]
    intro h
    injection h with h
    norm_num at h

/-- C4, amended: in exact arithmetic, for every `zoom > 0`, offset, canvas size
`(W, H)` with `W, H > 0`, scale in `(0, 1]` that is a binary64 value for which the
raster size the code computes loses nothing to the floor (`w = W * scale` and
`h = H * scale`), pointer position and wheel direction, the fractal coordinate the
renderer shows at the pointer is the same before and after `handleWheel` updates zoom
and offset. -/
theorem wheel_keeps_shown_point (s : State) (W H : ℕ) (mouseX mouseY deltaY : ℚ)
    (hz : 0 < s.zoom) (hs : 0 < s.scale) (hs1 : s.scale ≤ 1) (hd : roundQ s.scale = s.scale)
    (hW : 0 < W) (hH : 0 < H)
    (hw : ((rasterDim W s.scale : ℤ) : ℚ) = (W : ℚ) * s.scale)
    (hh : ((rasterDim H s.scale : ℤ) : ℚ) = (H : ℚ) * s.scale) :
    shownX (wheelAt W H mouseX mouseY deltaY s) W mouseX = shownX s W mouseX ∧
    shownY (wheelAt W H mouseX mouseY deltaY s) H mouseY = shownY s H mouseY := by
  have _ := hz
  have _ := hs1
  have _ := hd
  have hsc : (wheelAt W H mouseX mouseY deltaY s).scale = s.scale := rfl
  constructor
  · rw [shownX_eq_pointer _ W mouseX (by rw [hsc]; exact ne_of_gt hs) hW (by rw [hsc]; exact hw),
      shownX_eq_pointer s W mouseX (ne_of_gt hs) hW hw, wheelAt_zoom, wheelAt_offset_x]
    ring
  · rw [shownY_eq_pointer _ H mouseY (by rw [hsc]; exact ne_of_gt hs) hH (by rw [hsc]; exact hh),
      shownY_eq_pointer s H mouseY (ne_of_gt hs) hH hh, wheelAt_zoom, wheelAt_offset_y]
    ring

theorem roundQ_half : roundQ (1 / 2) = 1 / 2 := by
  rw [roundQ_eval (1 / 2) (-1) 4503599627370496 (by norm_num [le_abs]) (by norm_num [abs_lt])
    (by norm_num) (roundHalfEven_near _ _ (by norm_num [abs_lt]))]
  norm_num

theorem wheel_keeps_shown_point_witness :
    shownX (wheelAt 800 600 100 50 1 initialState) 800 100 = shownX initialState 800 100 ∧
    shownY (wheelAt 800 600 100 50 1 initialState) 600 50 = shownY initialState 600 50 :=
  wheel_keeps_shown_point initialState 800 600 100 50 1
    (by norm_num [initialState]) (by norm_num [initialState]) (by norm_num [initialState])
    (by rw [initialState_scale]; exact roundQ_half)
    (by decide) (by decide)
    (by rw [initialState_scale, rasterDim_800_half]; norm_num)
    (by rw [initialState_scale, rasterDim_600_half]; norm_num)

end Mandelbrot
